import Mathlib

/-!
Verification development for the IMSCC downgrader
(src/DowngradeIMSCC_v1.4.2.py).

Python strings are modelled as lists of byte values (`ByteStr`); all
strings relevant to the claims are ASCII, and `urllib.parse.quote` /
`urllib.parse.unquote` are modelled at the byte level (multi-byte UTF-8
escapes decode to their raw bytes; the replacement-character handling of
undecodable escapes is not distinguished, which is irrelevant to the
properties proved here).
-/

namespace Downgrader

/-- Python str values, as lists of byte values. -/
abbrev ByteStr := List Nat

/-- Converts an ASCII Lean string literal to its byte list. -/
def str (s : String) : ByteStr := s.data.map Char.toNat

/-- Characters that urllib.parse.quote leaves unescaped with
safe set slash dash underscore dot tilde: ASCII letters, digits, and the bytes for
dash, dot, slash, underscore, tilde. -/
def isSafeByte (b : Nat) : Bool :=
  (65 ≤ b && b ≤ 90) || (97 ≤ b && b ≤ 122) || (48 ≤ b && b ≤ 57) ||
  b == 45 || b == 46 || b == 47 || b == 95 || b == 126

/-- Value of an ASCII hex digit byte, as urllib accepts them
(digits, uppercase and lowercase letters). -/
def hexVal (b : Nat) : Option Nat :=
  if 48 ≤ b && b ≤ 57 then some (b - 48)
  else if 65 ≤ b && b ≤ 70 then some (b - 55)
  else if 97 ≤ b && b ≤ 102 then some (b - 87)
  else none

/-- Uppercase hex digit byte for a value below 16, as produced by
urllib.parse.quote. -/
def hexDigitUpper (v : Nat) : Nat := if v < 10 then 48 + v else 55 + v

/-- quote of a single byte: kept verbatim when safe, otherwise a
percent escape (37 is the percent byte). -/
def quoteByte (b : Nat) : ByteStr :=
  if isSafeByte b then [b] else [37, hexDigitUpper (b / 16), hexDigitUpper (b % 16)]

/-- urllib.parse.quote with safe set slash dash underscore dot tilde, at the byte level. -/
def quote (s : ByteStr) : ByteStr := s.flatMap quoteByte

/-- urllib.parse.unquote at the byte level: a percent byte followed by
two hex digits decodes to the corresponding byte; a percent byte not
followed by two hex digits stays, and scanning resumes right after it. -/
def unquote : ByteStr → ByteStr
  | [] => []
  | 37 :: h1 :: h2 :: rest2 =>
    match hexVal h1, hexVal h2 with
    | some v1, some v2 => (16 * v1 + v2) :: unquote rest2
    | _, _ => 37 :: unquote (h1 :: h2 :: rest2)
  | b :: rest => b :: unquote rest

/-- canonicalize_href (source lines 66-71):
urllib.parse.quote(urllib.parse.unquote(h), safe set slash dash underscore dot tilde). -/
def canonicalize_href (h : ByteStr) : ByteStr := quote (unquote h)

/-! XML document model.

Elements as parsed by xml.etree.ElementTree: a tag (which carries the
Clark-notation namespace, e.g. the bytes of a left brace, the namespace
URI, a right brace, then the local name), an attribute list, the element
text, and the child list.  125 and 123 are the bytes of the right and
left brace. -/

inductive Element where
  | mk (tag : ByteStr) (attrs : List (ByteStr × ByteStr)) (text : ByteStr)
       (children : List Element)

def Element.tag : Element → ByteStr
  | .mk t _ _ _ => t

def Element.attrs : Element → List (ByteStr × ByteStr)
  | .mk _ a _ _ => a

def Element.text : Element → ByteStr
  | .mk _ _ tx _ => tx

def Element.children : Element → List Element
  | .mk _ _ _ cs => cs

/-- elem.get(name): first attribute with the given name, if any
(ElementTree attributes are a dict, so names are unique in practice). -/
def getAttr (attrs : List (ByteStr × ByteStr)) (name : ByteStr) : Option ByteStr :=
  (attrs.find? (fun p => p.1 == name)).map (fun p => p.2)

def Element.get (e : Element) (name : ByteStr) : Option ByteStr :=
  getAttr e.attrs name

/-- Whether a tag has the given local name, as matched both by the
ElementPath wildcard pattern for a name in any namespace and by
tag.rsplit on the right brace: the tag is the bare name, or ends with a
right brace followed by the name. -/
def hasLocalName (name tag : ByteStr) : Bool :=
  tag == name || (125 :: name).isSuffixOf tag

def strItem : ByteStr := str "item"
def strResource : ByteStr := str "resource"
def strResources : ByteStr := str "resources"
def strDependency : ByteStr := str "dependency"
def strOrganization : ByteStr := str "organization"
def strManifest : ByteStr := str "manifest"
def strIdentifier : ByteStr := str "identifier"
def strIdentifierref : ByteStr := str "identifierref"
def strHref : ByteStr := str "href"
def strFile : ByteStr := str "file"

/-- Predicates on a parent-child edge of the tree, reading the parent
tag and the child tag and attributes (everything the removal passes of
the source inspect). -/
abbrev EdgePred := ByteStr → ByteStr → List (ByteStr × ByteStr) → Bool

mutual

/-- Removes, at every level below the given element, the children whose
edge satisfies P; a removed child disappears with its whole subtree.
This is the net effect, on the surviving tree, of the source's pattern
of iterating over a snapshot of all elements and calling parent.remove
on matching children. -/
def edgeFilterE (P : EdgePred) : Element → Element
  | .mk t a tx cs => .mk t a tx (edgeFilterL P t cs)

def edgeFilterL (P : EdgePred) (ptag : ByteStr) : List Element → List Element
  | [] => []
  | c :: rest =>
    if P ptag c.tag c.attrs then edgeFilterL P ptag rest
    else edgeFilterE P c :: edgeFilterL P ptag rest

end

def orPred (P Q : EdgePred) : EdgePred := fun pt ct ca => P pt ct ca || Q pt ct ca

/-- Whether child attributes contain an identifierref whose value is in
ids (None is never in a set of strings). -/
def refInIds (ids : List ByteStr) (cattrs : List (ByteStr × ByteStr)) : Bool :=
  match getAttr cattrs strIdentifierref with
  | some v => ids.contains v
  | none => false

/-- Edge predicate of remove_items_referring_to (source lines 434-440):
the child tag merely has to end with the bytes of item, and its
identifierref has to be one of the removed ids. -/
def itemRefPred (ids : List ByteStr) : EdgePred := fun _ ctag cattrs =>
  strItem.isSuffixOf ctag && refInIds ids cattrs

/-- remove_items_referring_to (source lines 434-440): drops, anywhere in
the tree, the item children whose identifierref is a removed id. -/
def remove_items_referring_to (ids : List ByteStr) (root : Element) : Element :=
  edgeFilterE (itemRefPred ids) root

/-- Edge predicate of remove_dependencies_referring_to (source lines
443-449): a dependency child of a resource element whose identifierref
is a removed id. -/
def depRefPred (ids : List ByteStr) : EdgePred := fun ptag ctag cattrs =>
  hasLocalName strResource ptag && hasLocalName strDependency ctag && refInIds ids cattrs

/-- remove_dependencies_referring_to (source lines 443-449): for every
resource element that is a proper descendant of the root, drops its
dependency children naming a removed id.  The root is not itself a
candidate parent because the source query uses a descendant search. -/
def remove_dependencies_referring_to (ids : List ByteStr) (root : Element) : Element :=
  .mk root.tag root.attrs root.text (root.children.map (edgeFilterE (depRefPred ids)))

mutual

/-- Whether some element of the tree (the given element included)
satisfies a predicate on tag and attributes. -/
def anyNodeE (p : ByteStr → List (ByteStr × ByteStr) → Bool) : Element → Bool
  | .mk t a _ cs => p t a || anyNodeL p cs

def anyNodeL (p : ByteStr → List (ByteStr × ByteStr) → Bool) : List Element → Bool
  | [] => false
  | c :: rest => anyNodeE p c || anyNodeL p rest

end

mutual

/-- Whether every parent-child edge of the tree satisfies Q. -/
def allEdgesE (Q : EdgePred) : Element → Bool
  | .mk t _ _ cs => allEdgesL Q t cs

def allEdgesL (Q : EdgePred) (ptag : ByteStr) : List Element → Bool
  | [] => true
  | c :: rest => Q ptag c.tag c.attrs && allEdgesE Q c && allEdgesL Q ptag rest

end

/-- A node is a bad item when its local name is item and its
identifierref is one of the removed ids. -/
def badItemNode (ids : List ByteStr) (tag : ByteStr) (attrs : List (ByteStr × ByteStr)) : Bool :=
  hasLocalName strItem tag && refInIds ids attrs

/-- A node is a bad dependency when its local name is dependency and its
identifierref is one of the removed ids. -/
def badDepNode (ids : List ByteStr) (tag : ByteStr) (attrs : List (ByteStr × ByteStr)) : Bool :=
  hasLocalName strDependency tag && refInIds ids attrs

/-- Well-formedness of a manifest edge as far as dependencies are
concerned: a dependency element only occurs as a direct child of a
resource element (the shape the IMS manifest schema prescribes). -/
def depParentOk : EdgePred := fun ptag ctag _ =>
  !hasLocalName strDependency ctag || hasLocalName strResource ptag

/-- A small concrete namespaced manifest used by witnesses: two items in
one organization referring to resources r1 and r2, and a dependency of
r1 on r2. -/
def witnessManifest : Element :=
  .mk (str "\x7bns\x7dmanifest") [] []
    [ .mk (str "\x7bns\x7dorganizations") [] []
        [ .mk (str "\x7bns\x7dorganization") [(strIdentifier, str "org1")] []
            [ .mk (str "\x7bns\x7ditem") [(strIdentifierref, str "r1")] [] [],
              .mk (str "\x7bns\x7ditem") [(strIdentifierref, str "r2")] [] [] ] ],
      .mk (str "\x7bns\x7dresources") [] []
        [ .mk (str "\x7bns\x7dresource")
            [(strIdentifier, str "r1"), (strHref, str "a.html")] []
            [ .mk (str "\x7bns\x7ddependency") [(strIdentifierref, str "r2")] [] [] ],
          .mk (str "\x7bns\x7dresource")
            [(strIdentifier, str "r2"), (strHref, str "b.html")] [] [] ] ]

/-! Resource deletion (the first step of a removal pass).

The source removers (remove_lti_resources, remove_assignment_extension_resources,
drop_resources_by_kind, all via the same pattern) locate the first
resources container in document order with a descendant search from the
root, and remove from it the direct resource children whose identifier
(defaulting to the empty string) is in the seed set. -/

/-- Whether a direct child of the resources container is removed for the
given seed set: a resource element whose identifier, defaulting to the
empty string as in the source, is a removed id. -/
def resRemovePred (ids : List ByteStr) (c : Element) : Bool :=
  hasLocalName strResource c.tag && ids.contains ((getAttr c.attrs strIdentifier).getD [])

def filterResChildren (ids : List ByteStr) (cs : List Element) : List Element :=
  cs.filter (fun c => !resRemovePred ids c)

mutual

/-- Document-order search for the first element with local name
resources, returning the tree with that container's resource children
filtered, or none when no container exists in this subtree. -/
def removeResSelf (ids : List ByteStr) : Element → Option Element
  | .mk t a tx cs =>
    if hasLocalName strResources t then some (.mk t a tx (filterResChildren ids cs))
    else
      match removeResList ids cs with
      | some cs2 => some (.mk t a tx cs2)
      | none => none

def removeResList (ids : List ByteStr) : List Element → Option (List Element)
  | [] => none
  | c :: rest =>
    match removeResSelf ids c with
    | some c2 => some (c2 :: rest)
    | none =>
      match removeResList ids rest with
      | some rest2 => some (c :: rest2)
      | none => none

end

/-- Deletion of the seed resources: the first resources container among
the proper descendants of the root (the root itself is excluded by the
source's descendant search) loses its matching resource children; when
no container exists the tree is unchanged. -/
def remove_resources (ids : List ByteStr) (root : Element) : Element :=
  match removeResList ids root.children with
  | some cs2 => .mk root.tag root.attrs root.text cs2
  | none => root

/-- One removal pass, as the pipeline performs it: delete the seed
resource elements, then prune items referring to them, then prune
dependencies referring to them. -/
def removalPass (ids : List ByteStr) (root : Element) : Element :=
  remove_dependencies_referring_to ids
    (remove_items_referring_to ids (remove_resources ids root))

def isResourcesNode (t : ByteStr) (_a : List (ByteStr × ByteStr)) : Bool :=
  hasLocalName strResources t

/-- Scan of the root children: the first child whose subtree contains a
resources element must itself be a resources container (the shape of a
well-formed manifest, where the single resources container is a direct
child of the manifest root). -/
def firstContainerOkL : List Element → Bool
  | [] => false
  | c :: rest =>
    if anyNodeE isResourcesNode c then hasLocalName strResources c.tag
    else firstContainerOkL rest

def firstContainerOk (root : Element) : Bool := firstContainerOkL root.children

/-- Normal form of resource deletion on the root children when
firstContainerOkL holds: the first child containing a resources node is
the container and has its resource children filtered. -/
def resFilterAtL (ids : List ByteStr) : List Element → List Element
  | [] => []
  | c :: rest =>
    if anyNodeE isResourcesNode c then
      .mk c.tag c.attrs c.text (filterResChildren ids c.children) :: rest
    else c :: resFilterAtL ids rest

/-- A concrete manifest for the pruner: one valid item, one item with a
dangling reference, and one container item whose only child also has a
dangling reference, so pruning the child makes the container vacuous. -/
def pruneWitness : Element :=
  .mk (str "\x7bns\x7dmanifest") [] []
    [ .mk (str "\x7bns\x7dorganizations") [] []
        [ .mk (str "\x7bns\x7dorganization") [(strIdentifier, str "org1")] []
            [ .mk (str "\x7bns\x7ditem") [(strIdentifierref, str "r1")] [] [],
              .mk (str "\x7bns\x7ditem") [(strIdentifierref, str "gone")] [] [],
              .mk (str "\x7bns\x7ditem") [] []
                [ .mk (str "\x7bns\x7ditem") [(strIdentifierref, str "gone2")] [] [] ] ] ],
      .mk (str "\x7bns\x7dresources") [] []
        [ .mk (str "\x7bns\x7dresource")
            [(strIdentifier, str "r1"), (strHref, str "a.html")] [] [] ] ]

/-- Normal form of the removal pass on the root children of a
well-formed manifest: resource deletion at the container, then item
pruning, then dependency pruning. -/
def passListNF (ids : List ByteStr) (pt : ByteStr) (cs : List Element) : List Element :=
  (edgeFilterL (itemRefPred ids) pt (resFilterAtL ids cs)).map
    (edgeFilterE (depRefPred ids))

/-! The organization item pruner (prune_items_with_missing_resources,
source lines 1558-1605). -/

/-- ASCII whitespace bytes, as stripped by Python str.strip. -/
def isSpaceByte (b : Nat) : Bool :=
  b == 32 || b == 9 || b == 10 || b == 13 || b == 11 || b == 12

/-- Python str.strip restricted to ASCII whitespace. -/
def sstrip (s : ByteStr) : ByteStr :=
  ((s.dropWhile isSpaceByte).reverse.dropWhile isSpaceByte).reverse

def isItemTag (t : ByteStr) : Bool := hasLocalName strItem t

def isOrgTag (t : ByteStr) : Bool := hasLocalName strOrganization t

def isResourceNode (t : ByteStr) (_a : List (ByteStr × ByteStr)) : Bool :=
  hasLocalName strResource t

/-- The stripped identifierref of an item, defaulting to the empty
string, as the pruner reads it. -/
def refOf (e : Element) : ByteStr := sstrip ((getAttr e.attrs strIdentifierref).getD [])

mutual

/-- Identifiers of resource elements (with a truthy identifier
attribute), in document order. -/
def collectResIdsE : Element → List ByteStr
  | .mk t a _ cs =>
    (if hasLocalName strResource t then
      match getAttr a strIdentifier with
      | some v => if v == [] then [] else [v]
      | none => []
    else []) ++ collectResIdsL cs

def collectResIdsL : List Element → List ByteStr
  | [] => []
  | c :: rest => collectResIdsE c ++ collectResIdsL rest

end

/-- valid_res_ids of the pruner: identifiers of all resource elements
among the proper descendants of the root. -/
def collectResourceIds (root : Element) : List ByteStr := collectResIdsL root.children

mutual

/-- The pruning walk.  The flag says whether the current child list is
pruned for items: true under an organization and along chains of item
children (the source prunes each organization's children and recurses
only through item children; everything else is walked but left alone,
and a nested organization restarts pruning).  An item child is dropped
when its stripped identifierref is nonempty and not a valid resource id,
or when it has no identifierref and, after its own subtree is pruned, no
item children; the source checks the reference first and computes the
child count after the recursive pruning, which the second test mirrors. -/
def pruneCtxE (valid : List ByteStr) (ctx : Bool) : Element → Element
  | .mk t a tx cs => .mk t a tx (pruneCtxL valid ctx cs)

def pruneCtxL (valid : List ByteStr) (ctx : Bool) : List Element → List Element
  | [] => []
  | c :: rest =>
    if ctx && isItemTag c.tag then
      if refOf c != [] && !(valid.contains (refOf c)) then pruneCtxL valid ctx rest
      else if refOf c == []
          && !((pruneCtxE valid true c).children.any (fun g => isItemTag g.tag)) then
        pruneCtxL valid ctx rest
      else pruneCtxE valid true c :: pruneCtxL valid ctx rest
    else pruneCtxE valid (isOrgTag c.tag) c :: pruneCtxL valid ctx rest

end

/-- prune_items_with_missing_resources: computes the valid resource ids
once, then prunes under each organization.  The root children start
unpruned (the source looks organizations up with a descendant search). -/
def prune_items_with_missing_resources (root : Element) : Element :=
  .mk root.tag root.attrs root.text
    (pruneCtxL (collectResourceIds root) false root.children)

/-- The per-item invariant of C9: an item either names a valid resource
or has no reference and at least one item child. -/
def itemInvariant (valid : List ByteStr) (e : Element) : Bool :=
  !isItemTag e.tag ||
    (if refOf e != [] then valid.contains (refOf e)
     else e.children.any (fun g => isItemTag g.tag))

mutual

def itemsOkE (valid : List ByteStr) : Element → Bool
  | .mk t a tx cs => itemInvariant valid (.mk t a tx cs) && itemsOkL valid cs

def itemsOkL (valid : List ByteStr) : List Element → Bool
  | [] => true
  | c :: rest => itemsOkE valid c && itemsOkL valid rest

end

/-- Well-formedness of a manifest edge as far as items are concerned:
an item element only occurs as a child of an organization or of another
item (the shape of the organization trees the pruner walks). -/
def itemParentPred : EdgePred := fun ptag ctag _ =>
  !isItemTag ctag || (isOrgTag ptag || isItemTag ptag)

mutual

/-- No resource element below any item: removing an item subtree then
never changes the set of resource identifiers. -/
def noResUnderItemE : Element → Bool
  | .mk t _ _ cs =>
    (if isItemTag t then !(anyNodeL isResourceNode cs) else true) && noResUnderItemL cs

def noResUnderItemL : List Element → Bool
  | [] => true
  | c :: rest => noResUnderItemE c && noResUnderItemL rest

end

/-! QTI true and false normalization (fix_qti_true_false_in_place,
source lines 742-850, and its verifier counterpart, lines 853-894).

A question item is modelled by the pieces of its XML tree that the
source reads: the question_type metadata entry, the response labels of
the first response_lid, the varequal texts under
respcondition/conditionvar, and the number of other elements there
(which drop_other only ever removes). -/

/-- Python str.lower restricted to ASCII letters. -/
def toLowerB (s : ByteStr) : ByteStr :=
  s.map (fun b => if 65 ≤ b && b ≤ 90 then b + 32 else b)

structure RespLabel where
  ident : ByteStr
  mattext : ByteStr
deriving DecidableEq

structure TFItem where
  qtype : Option ByteStr
  respLid : Option (List RespLabel)
  varequals : List ByteStr
  otherCount : Nat
deriving DecidableEq

inductive TFOutcome where
  | notDetected
  | fixed
  | fallbackMC
  | skipped
deriving DecidableEq

def strTrue : ByteStr := str "true"
def strFalse : ByteStr := str "false"
def strTFQ : ByteStr := str "true_false_question"
def strMCQ : ByteStr := str "multiple_choice_question"

/-- mattext_lower: lowercased stripped text of the first mattext of a
response label, empty when absent. -/
def mattextLower (l : RespLabel) : ByteStr := toLowerB (sstrip l.mattext)

/-- The stripped lowercased question_type metadata value. -/
def qtypeLower (it : TFItem) : ByteStr := toLowerB (sstrip (it.qtype.getD []))

/-- looks_tf: a response_lid with at least two labels whose first two
mattexts meet the canonical pair. -/
def looksTF (it : TFItem) : Bool :=
  match it.respLid with
  | none => false
  | some (l0 :: l1 :: _) =>
    (mattextLower l0 == strTrue || mattextLower l0 == strFalse)
      || (mattextLower l1 == strTrue || mattextLower l1 == strFalse)
  | some _ => false

/-- is_tf: the detection test of fix_qti_true_false_in_place. -/
def isTF (it : TFItem) : Bool := qtypeLower it == strTFQ || looksTF it

/-- Whether the pair of strings is exactly the two canonical words, in
either order (Python set equality with the two-word set). -/
def textSetTF (t1 t2 : ByteStr) : Bool :=
  (t1 == strTrue && t2 == strFalse) || (t1 == strFalse && t2 == strTrue)

/-- Lookup in a small association list with dict semantics: a later
assignment overrides an earlier one with the same key. -/
def dictGet (m : List (ByteStr × ByteStr)) (k : ByteStr) : Option ByteStr :=
  (m.reverse.find? (fun p => p.1 == k)).map (fun p => p.2)

/-- correct_ident: the first varequal with nonempty stripped text. -/
def firstCorrect (ves : List ByteStr) : Option ByteStr :=
  (ves.find? (fun v => sstrip v != [])).map sstrip

/-- The mapping step of fix_qti_true_false_in_place (source lines
811-818): when the correct identifier equals one of the two label
identifiers, it is mapped to true and the other to false; otherwise,
when the two label texts are exactly the canonical pair, each identifier
maps to its own text; otherwise the first identifier maps to true and
the second to false. -/
def tfMapping (id1 id2 t1 t2 : ByteStr) (correct : Option ByteStr) :
    List (ByteStr × ByteStr) :=
  match correct with
  | some cid =>
    if cid == id1 || cid == id2 then
      [(cid, strTrue), ((if cid == id2 then id1 else id2), strFalse)]
    else if textSetTF t1 t2 then [(id1, t1), (id2, t2)]
    else [(id1, strTrue), (id2, strFalse)]
  | none =>
    if textSetTF t1 t2 then [(id1, t1), (id2, t2)]
    else [(id1, strTrue), (id2, strFalse)]

/-- Modelled from the claim wording of C5, for comparison with the
source mapping: the first branch instead tests whether the answer-key's
correct identifier is itself one of the two canonical words. -/
def tfMappingClaim (id1 id2 t1 t2 : ByteStr) (correct : Option ByteStr) :
    List (ByteStr × ByteStr) :=
  match correct with
  | some cid =>
    if cid == strTrue || cid == strFalse then
      [(cid, strTrue), ((if cid == id2 then id1 else id2), strFalse)]
    else if textSetTF t1 t2 then [(id1, t1), (id2, t2)]
    else [(id1, strTrue), (id2, strFalse)]
  | none =>
    if textSetTF t1 t2 then [(id1, t1), (id2, t2)]
    else [(id1, strTrue), (id2, strFalse)]

/-- The varequal rewrite loop (source lines 825-834): a value in the
mapping is replaced by its image; otherwise a canonical word is
lowercased in place; otherwise the text becomes false. -/
def rewriteVe (m : List (ByteStr × ByteStr)) (vetext : ByteStr) : ByteStr :=
  let val := sstrip vetext
  match dictGet m val with
  | some mv => mv
  | none =>
    if toLowerB val == strTrue || toLowerB val == strFalse then toLowerB val
    else strFalse

/-- The collapse of three or more labels to two (source lines 788-795):
prefer the first true-texted and the first false-texted label when both
exist, else keep the first two. -/
def collapseLabels (labels : List RespLabel) : List RespLabel :=
  match labels.filter (fun l => mattextLower l == strTrue),
        labels.filter (fun l => mattextLower l == strFalse) with
  | tl :: _, fl :: _ => [tl, fl]
  | _, _ => labels.take 2

/-- The body of fix_qti_true_false_in_place once the item has exactly
two labels (source lines 800-846): build the mapping, retarget both
identifiers and every varequal through it, then, when the resulting
lowered identifier set is not exactly the canonical pair, force the
identifiers and varequals to the pair outright; drop_other then empties
the other elements. -/
def processTwo (it : TFItem) (l1 l2 : RespLabel) : TFItem :=
  let id1 := l1.ident
  let id2 := l2.ident
  let t1 := mattextLower l1
  let t2 := mattextLower l2
  let m := tfMapping id1 id2 t1 t2 (firstCorrect it.varequals)
  let l1b : RespLabel := { l1 with ident := (dictGet m id1).getD l1.ident }
  let l2b : RespLabel := { l2 with ident := (dictGet m id2).getD l2.ident }
  let ves1 := it.varequals.map (rewriteVe m)
  if !(textSetTF (toLowerB l1b.ident) (toLowerB l2b.ident)) then
    { it with
      respLid := some [{ l1b with ident := strTrue }, { l2b with ident := strFalse }],
      varequals := ves1.map (fun v =>
        if toLowerB (sstrip v) == strTrue then strTrue else strFalse),
      otherCount := 0 }
  else
    { it with respLid := some [l1b, l2b], varequals := ves1, otherCount := 0 }

/-- One item of fix_qti_true_false_in_place (source lines 767-846),
with its terminal outcome.  With a bad shape: the fallback only
rewrites the question_type metadata (when the field exists) and drops
other elements; without fallback, three or more labels are collapsed to
two and the item then continues to normalization, while a missing
response_lid or fewer than two labels is counted skipped untouched. -/
def processItem (fallback_tf_to_mc : Bool) (it : TFItem) : TFItem × TFOutcome :=
  if !(isTF it) then (it, .notDetected)
  else
    let labels0 := it.respLid.getD []
    if it.respLid.isNone || labels0.length != 2 then
      if fallback_tf_to_mc then
        ({ it with qtype := it.qtype.map (fun _ => strMCQ), otherCount := 0 },
          .fallbackMC)
      else if it.respLid.isSome && decide (labels0.length > 2) then
        match collapseLabels labels0 with
        | a :: b :: _ => (processTwo it a b, .fixed)
        | _ => (it, .skipped)
      else (it, .skipped)
    else
      match labels0 with
      | a :: b :: _ => (processTwo it a b, .fixed)
      | _ => (it, .skipped)

structure TFCounters where
  tf_fixed : Nat
  tf_mc_fallback : Nat
  tf_skipped : Nat
deriving DecidableEq

/-- The item loop of fix_qti_true_false_in_place over one file,
accumulating the three counters of the change log. -/
def processItems (fallback_tf_to_mc : Bool) : List TFItem → List TFItem × TFCounters
  | [] => ([], ⟨0, 0, 0⟩)
  | it :: rest =>
    let r := processItem fallback_tf_to_mc it
    let rr := processItems fallback_tf_to_mc rest
    (r.1 :: rr.1,
      ⟨rr.2.tf_fixed + (if r.2 == .fixed then 1 else 0),
       rr.2.tf_mc_fallback + (if r.2 == .fallbackMC then 1 else 0),
       rr.2.tf_skipped + (if r.2 == .skipped then 1 else 0)⟩)

/-- The per-item test of _has_bad_tf_idents (source lines 861-879),
whose positive result makes assert_no_bad_tf_idents raise. -/
def hasBadTFIdents (it : TFItem) : Bool :=
  let labels := it.respLid.getD []
  let detected :=
    qtypeLower it == strTFQ ||
    (it.respLid.isSome && labels.length == 2 &&
      (match labels with
       | l0 :: l1 :: _ => textSetTF (mattextLower l0) (mattextLower l1)
       | _ => false))
  if !detected then false
  else if it.respLid.isNone || labels.length != 2 then true
  else
    match labels with
    | l0 :: l1 :: _ =>
      if !(textSetTF (toLowerB l0.ident) (toLowerB l1.ident)) then true
      else it.varequals.any (fun v =>
        !(toLowerB (sstrip v) == strTrue || toLowerB (sstrip v) == strFalse))
    | _ => true

/-- The C7 counterexample item: declared true_false_question with three
choice options, the first two texted True and False, the answer key
naming the first. -/
def threeChoiceItem : TFItem :=
  { qtype := some (str "true_false_question"),
    respLid := some
      [ { ident := str "optA", mattext := str "True" },
        { ident := str "optB", mattext := str "False" },
        { ident := str "optC", mattext := str "Maybe" } ],
    varequals := [str "optA"],
    otherCount := 1 }

/-- The first alternative of the marker regular expression of
assert_no_v13_v12_uris (source line 357). -/
def strM1 : ByteStr := str "imsccv1p3"

/-- The second alternative of the marker regular expression. -/
def strM2 : ByteStr := str "imscp_extensionv1p2"

/-- The third alternative of the marker regular expression. -/
def strM3 : ByteStr := str "ccv1p3"

/-- re.findall over the alternation of the three literal markers: scan
left to right, at each position try the alternatives in order, consume a
match wholly, otherwise advance one byte. -/
def findMarkers : ByteStr → List ByteStr
  | [] => []
  | b :: rest =>
    if strM1.isPrefixOf (b :: rest) then
      strM1 :: findMarkers ((b :: rest).drop strM1.length)
    else if strM2.isPrefixOf (b :: rest) then
      strM2 :: findMarkers ((b :: rest).drop strM2.length)
    else if strM3.isPrefixOf (b :: rest) then
      strM3 :: findMarkers ((b :: rest).drop strM3.length)
    else findMarkers rest
termination_by t => t.length
decreasing_by
  all_goals
    simp only [List.length_drop, List.length_cons]
    have h1 : 0 < strM1.length := by decide
    have h2 : 0 < strM2.length := by decide
    have h3 : 0 < strM3.length := by decide
    omega

/-- assert_no_v13_v12_uris (source lines 356-359) raises exactly when
the findall over the marker alternation returns a non-empty list. -/
def assert_no_v13_v12_uris (t : ByteStr) : Bool :=
  findMarkers t != []

def strSchemaversion : ByteStr := str "schemaversion"
def strNCA : ByteStr := str "non_cc_assessments/"
def strXmlQti : ByteStr := str ".xml.qti"
def strAQX : ByteStr := str "/assessment_qti.xml"

mutual
/-- Texts of schemaversion descendants with truthy (nonempty) text, in
document order. -/
def svCollectE : Element → List ByteStr
  | .mk t _ tx cs =>
    (if hasLocalName strSchemaversion t && tx != [] then [tx] else []) ++ svCollectL cs
def svCollectL : List Element → List ByteStr
  | [] => []
  | c :: rest => svCollectE c ++ svCollectL rest
end

/-- manifest_cc_version (source lines 369-373): the stripped text of the
first schemaversion descendant with truthy text. -/
def manifest_cc_version (root : Element) : Option ByteStr :=
  (svCollectL root.children).head?.map sstrip

mutual
/-- The attribute values (empty when absent, as get or the empty
string) of all descendants with the given local name, in document
order. -/
def collectAttrE (name attr : ByteStr) : Element → List ByteStr
  | .mk t a _ cs =>
    (if hasLocalName name t then [(getAttr a attr).getD []] else [])
      ++ collectAttrL name attr cs
def collectAttrL (name attr : ByteStr) : List Element → List ByteStr
  | [] => []
  | c :: rest => collectAttrE name attr c ++ collectAttrL name attr rest
end

mutual
/-- root.find of a resource descendant with the given identifier: the
first match in document order. -/
def findResByIdE (rid : ByteStr) : Element → Option Element
  | .mk t a tx cs =>
    if hasLocalName strResource t && ((getAttr a strIdentifier).getD [] == rid) then
      some (.mk t a tx cs)
    else findResByIdL rid cs
def findResByIdL (rid : ByteStr) : List Element → Option Element
  | [] => none
  | c :: rest =>
    match findResByIdE rid c with
    | some r => some r
    | none => findResByIdL rid rest
end

/-- A Canvas QTI payload reference: starts with the non_cc_assessments
directory and ends in .xml.qti. -/
def isCanvasQtiHref (h : ByteStr) : Bool :=
  strNCA.isPrefixOf h && strXmlQti.isSuffixOf h

/-- The dependency chain of detect_canvas_qti_artifacts (source lines
124-134): for every dependency with a nonempty identifierref whose
resource is found, its href when it is a Canvas QTI reference. -/
def depQtiHrefs (root : Element) : List ByteStr :=
  ((collectAttrL strDependency strIdentifierref root.children).filter
      (fun r => r != [])).filterMap
    (fun ref =>
      match findResByIdL ref root.children with
      | some r =>
        if isCanvasQtiHref ((r.get strHref).getD []) then some ((r.get strHref).getD [])
        else none
      | none => none)

/-- The de-dupe and existence filter of detect_canvas_qti_artifacts
(source lines 143-146): keep a path the first time it is seen when it
exists among the payload files. -/
def uniqExisting (payload seen : List ByteStr) : List ByteStr → List ByteStr
  | [] => []
  | p :: rest =>
    if !(seen.contains p) && payload.contains p then
      p :: uniqExisting payload (p :: seen) rest
    else uniqExisting payload seen rest

/-- An extracted cartridge: the parsed manifest root and the payload
file paths present on disk, relative to the package root. -/
structure Package where
  root : Element
  payload : List ByteStr

/-- detect_canvas_qti_artifacts (source lines 99-149), reduced to its
should_force result: reasons exist (a non_cc_assessments .xml.qti file
entry or dependency) or a collected QTI file path exists on disk. -/
def detect_canvas_qti_artifacts (pkg : Package) : Bool :=
  (collectAttrL strFile strHref pkg.root.children).filter isCanvasQtiHref != []
    || depQtiHrefs pkg.root != []
    || uniqExisting pkg.payload []
        ((collectAttrL strFile strHref pkg.root.children).filter isCanvasQtiHref
          ++ depQtiHrefs pkg.root
          ++ (collectAttrL strFile strHref pkg.root.children).filter
              (fun h => strAQX.isSuffixOf h)) != []

/-- The early pass-through of process_cartridge (source lines 1392-1404):
when the declared version is truthy, starts with 1.0 or 1.1, and no
Canvas QTI artifacts are detected, the input package is returned
unchanged; otherwise processing continues (modeled as none). -/
def process_cartridge_early (pkg : Package) : Option Package :=
  match manifest_cc_version pkg.root with
  | some ver =>
    if ver != []
        && ((str "1.0").isPrefixOf ver || (str "1.1").isPrefixOf ver)
        && !(detect_canvas_qti_artifacts pkg) then
      some pkg
    else none
  | none => none

/-- A concrete already-1.1 package with no QTI artifacts, for the C10
witness. -/
def earlyPassPkg : Package :=
  { root := Element.mk (str "manifest") [] []
      [ Element.mk (str "metadata") [] []
          [ Element.mk (str "schemaversion") [] (str "1.1.0") [] ],
        Element.mk (str "resources") [] []
          [ Element.mk (str "resource")
              [(strIdentifier, str "r1"), (strHref, str "web/x.html")] []
              [ Element.mk (str "file") [(strHref, str "web/x.html")] [] [] ] ] ],
    payload := [str "web/x.html"] }

/-! The payload-repair passes of process_cartridge, source lines
1611-1739 and 706-722: the package state is the manifest tree plus the
list of payload file paths present on disk (existence is what the
passes read and write; file contents are immaterial to them). -/

/-- elem.set(name, value): dict semantics, replace the attribute when
present else add it. -/
def setAttr (a : List (ByteStr × ByteStr)) (name v : ByteStr) :
    List (ByteStr × ByteStr) :=
  if (a.find? (fun p => p.1 == name)).isSome then
    a.map (fun p => if p.1 == name then (p.1, v) else p)
  else a ++ [(name, v)]

def isFileChild (c : Element) : Bool := hasLocalName strFile c.tag

/-- The Clark-notation tag of the file element SubElement creates
(source line 1662). -/
def strFileTagNS : ByteStr :=
  str "\x7bhttp://www.imsglobal.org/xsd/imscp_v1p1\x7dfile"

/-- The extra-file removal loop of normalize_resource_hrefs (source
lines 1666-1668): after the first file child, drop every file child
whose stripped href differs from the encoded href. -/
def alignRest (enc : ByteStr) : List Element → List Element
  | [] => []
  | c :: rest =>
    if isFileChild c && sstrip ((c.get strHref).getD []) != enc then alignRest enc rest
    else c :: alignRest enc rest

/-- The file-child alignment of normalize_resource_hrefs (source lines
1660-1668): point the first file child (created when absent, appended
at the end as SubElement does) at the encoded href, and drop extra
mismatched file children. -/
def alignFiles (enc : ByteStr) : List Element → List Element
  | [] => [Element.mk strFileTagNS [(strHref, enc)] [] []]
  | c :: rest =>
    if isFileChild c then
      Element.mk c.tag (setAttr c.attrs strHref enc) c.text c.children
        :: alignRest enc rest
    else c :: alignFiles enc rest

/-- The payload-ensuring step of normalize_resource_hrefs (source lines
1631-1657): when no file sits at the encoded path, copy the first
existing candidate (decoded original, original, decoded encoded) there,
else synthesize a placeholder there; either way the encoded path then
exists. -/
def ensurePayload (st : List ByteStr) (h enc : ByteStr) : List ByteStr :=
  if st.contains enc then st
  else if st.contains (unquote h) then enc :: st
  else if st.contains h then enc :: st
  else if st.contains (unquote enc) then enc :: st
  else enc :: st

mutual
/-- normalize_resource_hrefs (source lines 1611-1671) over the tree in
document order, threading the payload: every resource descendant with a
nonempty stripped href gets the canonical encoded href, a payload file
at the encoded path, and aligned file children.  Nested resources are
processed after the enclosing resource; aligning the enclosing
resource's file children after rather than before them is equivalent
since alignment touches only file elements. -/
def normResE (st : List ByteStr) : Element → Element × List ByteStr
  | .mk t a tx cs =>
    if hasLocalName strResource t && sstrip ((getAttr a strHref).getD []) != [] then
      let h := sstrip ((getAttr a strHref).getD [])
      let enc := canonicalize_href h
      let p := normResL (ensurePayload st h enc) cs
      (.mk t (setAttr a strHref enc) tx (alignFiles enc p.1), p.2)
    else
      let p := normResL st cs
      (.mk t a tx p.1, p.2)
def normResL (st : List ByteStr) : List Element → List Element × List ByteStr
  | [] => ([], st)
  | c :: rest =>
    let p := normResE st c
    let q := normResL p.2 rest
    (p.1 :: q.1, q.2)
end

def normalize_resource_hrefs (pkg : Package) : Package :=
  { root := (normResE pkg.payload pkg.root).1,
    payload := (normResE pkg.payload pkg.root).2 }

mutual
/-- The href walk of enforce_decoded_payload (source lines 1692-1701):
every resource descendant's stripped nonempty href, and the stripped
nonempty hrefs of its direct file children. -/
def hrefsCollectE : Element → List ByteStr
  | .mk t a _ cs =>
    (if hasLocalName strResource t then
      (if sstrip ((getAttr a strHref).getD []) != []
       then [sstrip ((getAttr a strHref).getD [])] else [])
        ++ (cs.filter isFileChild).filterMap (fun f =>
            if sstrip ((f.get strHref).getD []) != []
            then some (sstrip ((f.get strHref).getD [])) else none)
     else [])
      ++ hrefsCollectL cs
def hrefsCollectL : List Element → List ByteStr
  | [] => []
  | c :: rest => hrefsCollectE c ++ hrefsCollectL rest
end

/-- Lexicographic byte order, as Python sorts strings. -/
def lexLe : ByteStr → ByteStr → Bool
  | [], _ => true
  | _ :: _, [] => false
  | a :: as1, b :: bs1 =>
    if a < b then true else if b < a then false else lexLe as1 bs1

def insertSorted (x : ByteStr) : List ByteStr → List ByteStr
  | [] => [x]
  | y :: rest => if lexLe x y then x :: y :: rest else y :: insertSorted x rest

/-- sorted over the collected href set. -/
def sortHrefs (l : List ByteStr) : List ByteStr := l.foldr insertSorted []

/-- One href of enforce_decoded_payload (source lines 1703-1736): with
enc the canonical encoded form and dec its decoded form, move the file
from enc to dec when only enc exists, delete the file at enc when both
paths exist (when enc and dec are the same plain path this deletes the
only copy), and synthesize a placeholder at dec when neither exists. -/
def enforceStep (payload : List ByteStr) (h : ByteStr) : List ByteStr :=
  let enc := canonicalize_href (sstrip h)
  let dec := unquote enc
  if payload.contains enc && !(payload.contains dec) then dec :: payload.erase enc
  else if payload.contains enc && payload.contains dec then payload.erase enc
  else if !(payload.contains enc) && !(payload.contains dec) then dec :: payload
  else payload

def enforce_decoded_payload (pkg : Package) : Package :=
  { root := pkg.root,
    payload :=
      (sortHrefs (hrefsCollectE pkg.root).dedup).foldl enforceStep pkg.payload }

/-- One file of dedupe_keep_decoded (source lines 706-722): unlike
enforce_decoded_payload it deletes the encoded duplicate only when the
encoded and decoded paths differ. -/
def dedupeStep (payload : List ByteStr) (rel : ByteStr) : List ByteStr :=
  let enc := canonicalize_href rel
  let dec := unquote enc
  if enc != dec && payload.contains enc && payload.contains dec then payload.erase enc
  else payload

def dedupe_keep_decoded (pkg : Package) : Package :=
  { pkg with payload := pkg.payload.foldl dedupeStep pkg.payload }

/-- The C1 failing input: a well-formed package whose one resource
carries the plain escape-free href web/x.html with its payload file
present and its file child aligned. -/
def c1Pkg : Package :=
  { root := Element.mk (str "manifest") [] []
      [ Element.mk (str "resources") [] []
          [ Element.mk (str "resource")
              [(strIdentifier, str "r1"), (strHref, str "web/x.html")] []
              [ Element.mk (str "file") [(strHref, str "web/x.html")] [] [] ] ] ],
    payload := [str "web/x.html"] }

/-! Lemmas about the percent-encoding model, leading to claim C2. -/

theorem hexVal_hexDigitUpper (v : Nat) (h : v ≤ 15) :
    hexVal (hexDigitUpper v) = some v := by
  unfold hexVal hexDigitUpper
  by_cases h10 : v < 10
  · simp only [if_pos h10]
    have : 48 ≤ 48 + v ∧ 48 + v ≤ 57 := by omega
    simp [this.1, this.2]
  · simp only [if_neg h10]
    have h1 : ¬ (48 ≤ 55 + v && 55 + v ≤ 57) = true := by
      simp; omega
    have h2 : 65 ≤ 55 + v ∧ 55 + v ≤ 70 := by omega
    simp [h2.1, h2.2]
    omega

theorem hexVal_le_15 (b v : Nat) (h : hexVal b = some v) : v ≤ 15 := by
  unfold hexVal at h
  split_ifs at h with h1 h2 h3 <;> simp at * <;> omega

theorem isSafeByte_ne_37 (b : Nat) (h : isSafeByte b = true) : b ≠ 37 := by
  unfold isSafeByte at h
  simp at h
  omega

theorem unquote_cons_ne (b : Nat) (l : ByteStr) (h : b ≠ 37) :
    unquote (b :: l) = b :: unquote l :=
  unquote.eq_3 b l (fun _ _ _ hb _ => h hb)

theorem unquote_escape (h1 h2 : Nat) (l : ByteStr) (v1 v2 : Nat)
    (hv1 : hexVal h1 = some v1) (hv2 : hexVal h2 = some v2) :
    unquote (37 :: h1 :: h2 :: l) = (16 * v1 + v2) :: unquote l := by
  rw [unquote.eq_2, hv1, hv2]

theorem unquote_escape_bad (h1 h2 : Nat) (l : ByteStr)
    (hbad : hexVal h1 = none ∨ hexVal h2 = none) :
    unquote (37 :: h1 :: h2 :: l) = 37 :: unquote (h1 :: h2 :: l) := by
  rw [unquote.eq_2]
  rcases hbad with hb | hb <;> rw [hb] <;> cases hother : hexVal h2 <;>
    cases hother2 : hexVal h1 <;> simp_all

theorem unquote_quoteByte_append (b : Nat) (l : ByteStr) (hb : b < 256) :
    unquote (quoteByte b ++ l) = b :: unquote l := by
  unfold quoteByte
  by_cases hs : isSafeByte b
  · simp only [if_pos hs, List.cons_append, List.nil_append]
    exact unquote_cons_ne b l (isSafeByte_ne_37 b hs)
  · simp only [if_neg hs, List.cons_append, List.nil_append]
    have hdiv : b / 16 ≤ 15 := by omega
    have hmod : b % 16 ≤ 15 := by omega
    rw [unquote_escape _ _ _ _ _ (hexVal_hexDigitUpper _ hdiv) (hexVal_hexDigitUpper _ hmod)]
    congr 1
    omega

theorem unquote_quote (s : ByteStr) (h : ∀ b ∈ s, b < 256) :
    unquote (quote s) = s := by
  induction s with
  | nil => rfl
  | cons b t ih =>
    have hb : b < 256 := h b (List.mem_cons_self b t)
    have ht : ∀ x ∈ t, x < 256 := fun x hx => h x (List.mem_cons_of_mem b hx)
    simp only [quote, List.flatMap_cons]
    rw [show t.flatMap quoteByte = quote t from rfl,
        unquote_quoteByte_append b (quote t) hb, ih ht]

theorem unquote_bytes_lt (s : ByteStr) (h : ∀ b ∈ s, b < 256) :
    ∀ b ∈ unquote s, b < 256 := by
  induction s using unquote.induct with
  | case1 => simp [unquote]
  | case2 h1 h2 rest2 v1 v2 hv2 hv1 ih =>
    have hr : ∀ x ∈ rest2, x < 256 := by
      intro x hx; exact h x (by simp [hx])
    intro b hb
    rw [unquote_escape _ _ _ _ _ hv1 hv2] at hb
    rcases List.mem_cons.mp hb with hb | hb
    · have := hexVal_le_15 _ _ hv1
      have := hexVal_le_15 _ _ hv2
      omega
    · exact ih hr b hb
  | case3 h1 h2 rest2 hnot ih =>
    have hr : ∀ x ∈ h1 :: h2 :: rest2, x < 256 := by
      intro x hx
      apply h
      simp at hx ⊢
      tauto
    have hbad : hexVal h1 = none ∨ hexVal h2 = none := by
      cases hc1 : hexVal h1 with
      | none => exact Or.inl rfl
      | some v1 =>
        cases hc2 : hexVal h2 with
        | none => exact Or.inr rfl
        | some v2 => exact absurd (hnot v1 v2 hc1 hc2) (fun t => t)
    intro b hb
    rw [unquote_escape_bad _ _ _ hbad] at hb
    rcases List.mem_cons.mp hb with hb | hb
    · omega
    · exact ih hr b hb
  | case4 b rest hne ih =>
    have hr : ∀ x ∈ rest, x < 256 := fun x hx => h x (List.mem_cons_of_mem b hx)
    intro x hx
    rw [unquote.eq_3 b rest hne] at hx
    rcases List.mem_cons.mp hx with hx | hx
    · exact hx ▸ h b (List.mem_cons_self b rest)
    · exact ih hr x hx

/-- C2: canonicalize_href is idempotent on every byte string, and any two
strings with the same percent-decoding have the same canonical form. -/
theorem C2_canonicalize_href_idempotent (x y : ByteStr) (hx : ∀ b ∈ x, b < 256) :
    canonicalize_href (canonicalize_href x) = canonicalize_href x ∧
    (unquote x = unquote y → canonicalize_href x = canonicalize_href y) := by
  constructor
  · show quote (unquote (quote (unquote x))) = quote (unquote x)
    rw [unquote_quote (unquote x) (unquote_bytes_lt x hx)]
  · intro h
    show quote (unquote x) = quote (unquote y)
    rw [h]

/-- Witness for C2 at x = "a%20b", y = "a b". -/
theorem C2_canonicalize_href_idempotent_witness :
    canonicalize_href (canonicalize_href (str "a%20b")) = canonicalize_href (str "a%20b") ∧
    (unquote (str "a%20b") = unquote (str "a b") →
      canonicalize_href (str "a%20b") = canonicalize_href (str "a b")) :=
  C2_canonicalize_href_idempotent (str "a%20b") (str "a b") (by decide)

/-! Lemmas about local names and tag suffixes. -/

theorem suffix_getLast (l1 l2 : ByteStr) (h : l1.isSuffixOf l2 = true) (hn : l1 ≠ []) :
    l2.getLast? = l1.getLast? := by
  obtain ⟨pre, rfl⟩ := List.isSuffixOf_iff_suffix.mp h
  rw [List.getLast?_append]
  cases hg : l1.getLast? with
  | none => exact absurd (List.getLast?_eq_none_iff.mp hg) hn
  | some v => rfl

theorem hasLocalName_getLast (n t : ByteStr) (h : hasLocalName n t = true) (hn : n ≠ []) :
    t.getLast? = n.getLast? := by
  unfold hasLocalName at h
  rcases Bool.or_eq_true_iff.mp h with h | h
  · rw [show t = n from by simpa using h]
  · rw [suffix_getLast _ _ h (by simp)]
    cases n with
    | nil => exact absurd rfl hn
    | cons b r => simp [List.getLast?]

theorem hasLocalName_exclusive (n1 n2 t : ByteStr)
    (h1 : hasLocalName n1 t = true) (hn1 : n1 ≠ []) (hn2 : n2 ≠ [])
    (hlast : n1.getLast? ≠ n2.getLast?) :
    hasLocalName n2 t = false := by
  cases hx : hasLocalName n2 t
  · rfl
  · exact absurd ((hasLocalName_getLast n1 t h1 hn1).symm.trans
      (hasLocalName_getLast n2 t hx hn2)) hlast

theorem isSuffixOf_getLast_exclusive (n1 n2 t : ByteStr)
    (h1 : hasLocalName n1 t = true) (hn1 : n1 ≠ []) (hn2 : n2 ≠ [])
    (hlast : n1.getLast? ≠ n2.getLast?) :
    n2.isSuffixOf t = false := by
  cases hx : n2.isSuffixOf t
  · rfl
  · exact absurd ((hasLocalName_getLast n1 t h1 hn1).symm.trans
      (suffix_getLast n2 t hx hn2)) hlast

theorem hasLocalName_isSuffixOf (n t : ByteStr) (h : hasLocalName n t = true) :
    n.isSuffixOf t = true := by
  unfold hasLocalName at h
  rcases Bool.or_eq_true_iff.mp h with h | h
  · rw [show t = n from by simpa using h]
    exact List.isSuffixOf_iff_suffix.mpr (List.suffix_refl n)
  · exact List.isSuffixOf_iff_suffix.mpr
      ((List.suffix_cons 125 n).trans (List.isSuffixOf_iff_suffix.mp h))

/-! Algebra of the edge-removal passes. -/

theorem edgeFilterE_tag (P : EdgePred) (e : Element) : (edgeFilterE P e).tag = e.tag := by
  cases e; rfl

theorem edgeFilterE_attrs (P : EdgePred) (e : Element) : (edgeFilterE P e).attrs = e.attrs := by
  cases e; rfl

theorem edgeFilterE_def (P : EdgePred) (e : Element) :
    edgeFilterE P e = .mk e.tag e.attrs e.text (edgeFilterL P e.tag e.children) := by
  cases e; rfl

theorem anyNodeE_def (p : ByteStr → List (ByteStr × ByteStr) → Bool) (e : Element) :
    anyNodeE p e = (p e.tag e.attrs || anyNodeL p e.children) := by
  cases e; rfl

theorem tag_mk (t : ByteStr) (a : List (ByteStr × ByteStr)) (tx : ByteStr)
    (cs : List Element) : (Element.mk t a tx cs).tag = t := rfl

theorem attrs_mk (t : ByteStr) (a : List (ByteStr × ByteStr)) (tx : ByteStr)
    (cs : List Element) : (Element.mk t a tx cs).attrs = a := rfl

theorem children_mk (t : ByteStr) (a : List (ByteStr × ByteStr)) (tx : ByteStr)
    (cs : List Element) : (Element.mk t a tx cs).children = cs := rfl

theorem text_mk (t : ByteStr) (a : List (ByteStr × ByteStr)) (tx : ByteStr)
    (cs : List Element) : (Element.mk t a tx cs).text = tx := rfl

theorem edgeFilterL_cons_pos (P : EdgePred) (pt : ByteStr) (c : Element)
    (rest : List Element) (hp : P pt c.tag c.attrs = true) :
    edgeFilterL P pt (c :: rest) = edgeFilterL P pt rest := by
  simp [edgeFilterL, hp]

theorem edgeFilterL_cons_neg (P : EdgePred) (pt : ByteStr) (c : Element)
    (rest : List Element) (hp : P pt c.tag c.attrs = false) :
    edgeFilterL P pt (c :: rest) = edgeFilterE P c :: edgeFilterL P pt rest := by
  simp [edgeFilterL, hp]

theorem resFilterAtL_cons_pos (ids : List ByteStr) (c : Element) (rest : List Element)
    (hAny : anyNodeE isResourcesNode c = true) :
    resFilterAtL ids (c :: rest)
      = .mk c.tag c.attrs c.text (filterResChildren ids c.children) :: rest := by
  unfold resFilterAtL
  rw [if_pos hAny]

theorem resFilterAtL_cons_neg (ids : List ByteStr) (c : Element) (rest : List Element)
    (hAny : anyNodeE isResourcesNode c = false) :
    resFilterAtL ids (c :: rest) = c :: resFilterAtL ids rest := by
  conv_lhs => unfold resFilterAtL
  rw [if_neg (by rw [hAny]; simp)]

theorem firstContainerOkL_cons_pos (c : Element) (rest : List Element)
    (hAny : anyNodeE isResourcesNode c = true) :
    firstContainerOkL (c :: rest) = hasLocalName strResources c.tag := by
  unfold firstContainerOkL
  rw [if_pos hAny]

theorem firstContainerOkL_cons_neg (c : Element) (rest : List Element)
    (hAny : anyNodeE isResourcesNode c = false) :
    firstContainerOkL (c :: rest) = firstContainerOkL rest := by
  conv_lhs => unfold firstContainerOkL
  rw [if_neg (by rw [hAny]; simp)]

theorem allEdgesE_children (Q : EdgePred) (e : Element)
    (h : allEdgesE Q e = true) : allEdgesL Q e.tag e.children = true := by
  cases e with
  | mk t a tx cs => simpa [allEdgesE] using h

mutual

theorem edgeFilterE_comp (P Q : EdgePred) (e : Element) :
    edgeFilterE P (edgeFilterE Q e) = edgeFilterE (orPred Q P) e := by
  cases e with
  | mk t a tx cs =>
    simp only [edgeFilterE]
    rw [edgeFilterL_comp]

theorem edgeFilterL_comp (P Q : EdgePred) (pt : ByteStr) (cs : List Element) :
    edgeFilterL P pt (edgeFilterL Q pt cs) = edgeFilterL (orPred Q P) pt cs := by
  cases cs with
  | nil => rfl
  | cons c rest =>
    by_cases hq : Q pt c.tag c.attrs
    · rw [show edgeFilterL Q pt (c :: rest) = edgeFilterL Q pt rest by
        simp [edgeFilterL, hq]]
      rw [show edgeFilterL (orPred Q P) pt (c :: rest) = edgeFilterL (orPred Q P) pt rest by
        simp [edgeFilterL, orPred, hq]]
      exact edgeFilterL_comp P Q pt rest
    · rw [show edgeFilterL Q pt (c :: rest) = edgeFilterE Q c :: edgeFilterL Q pt rest by
        simp [edgeFilterL, hq]]
      by_cases hp : P pt c.tag c.attrs
      · rw [show edgeFilterL P pt (edgeFilterE Q c :: edgeFilterL Q pt rest)
              = edgeFilterL P pt (edgeFilterL Q pt rest) by
          simp [edgeFilterL, edgeFilterE_tag, edgeFilterE_attrs, hp]]
        rw [show edgeFilterL (orPred Q P) pt (c :: rest) = edgeFilterL (orPred Q P) pt rest by
          simp [edgeFilterL, orPred, hp]]
        exact edgeFilterL_comp P Q pt rest
      · rw [show edgeFilterL P pt (edgeFilterE Q c :: edgeFilterL Q pt rest)
              = edgeFilterE P (edgeFilterE Q c) :: edgeFilterL P pt (edgeFilterL Q pt rest) by
          simp [edgeFilterL, edgeFilterE_tag, edgeFilterE_attrs, hp]]
        rw [show edgeFilterL (orPred Q P) pt (c :: rest)
              = edgeFilterE (orPred Q P) c :: edgeFilterL (orPred Q P) pt rest by
          simp [edgeFilterL, orPred, hp, hq]]
        rw [edgeFilterE_comp P Q c, edgeFilterL_comp P Q pt rest]

end

theorem orPred_comm (P Q : EdgePred) : orPred P Q = orPred Q P := by
  funext pt ct ca
  exact Bool.or_comm _ _

theorem orPred_self (P : EdgePred) : orPred P P = P := by
  funext pt ct ca
  exact Bool.or_self _

mutual

theorem anyNodeE_edgeFilter_le (p : ByteStr → List (ByteStr × ByteStr) → Bool)
    (Q : EdgePred) (e : Element)
    (h : anyNodeE p (edgeFilterE Q e) = true) : anyNodeE p e = true := by
  cases e with
  | mk t a tx cs =>
    simp only [edgeFilterE, anyNodeE] at h ⊢
    rcases Bool.or_eq_true_iff.mp h with h | h
    · exact Bool.or_eq_true_iff.mpr (Or.inl h)
    · exact Bool.or_eq_true_iff.mpr (Or.inr (anyNodeL_edgeFilter_le p Q t cs h))

theorem anyNodeL_edgeFilter_le (p : ByteStr → List (ByteStr × ByteStr) → Bool)
    (Q : EdgePred) (pt : ByteStr) (cs : List Element)
    (h : anyNodeL p (edgeFilterL Q pt cs) = true) : anyNodeL p cs = true := by
  cases cs with
  | nil => simpa [edgeFilterL] using h
  | cons c rest =>
    simp only [anyNodeL]
    by_cases hq : Q pt c.tag c.attrs
    · rw [show edgeFilterL Q pt (c :: rest) = edgeFilterL Q pt rest by
        simp [edgeFilterL, hq]] at h
      exact Bool.or_eq_true_iff.mpr (Or.inr (anyNodeL_edgeFilter_le p Q pt rest h))
    · rw [show edgeFilterL Q pt (c :: rest) = edgeFilterE Q c :: edgeFilterL Q pt rest by
        simp [edgeFilterL, hq]] at h
      simp only [anyNodeL] at h
      rcases Bool.or_eq_true_iff.mp h with h | h
      · exact Bool.or_eq_true_iff.mpr (Or.inl (anyNodeE_edgeFilter_le p Q c h))
      · exact Bool.or_eq_true_iff.mpr (Or.inr (anyNodeL_edgeFilter_le p Q pt rest h))

end

theorem anyNodeL_map_edgeFilter_le (p : ByteStr → List (ByteStr × ByteStr) → Bool)
    (Q : EdgePred) (cs : List Element)
    (h : anyNodeL p (cs.map (edgeFilterE Q)) = true) : anyNodeL p cs = true := by
  induction cs with
  | nil => simpa using h
  | cons c rest ih =>
    simp only [List.map, anyNodeL] at h ⊢
    rcases Bool.or_eq_true_iff.mp h with h | h
    · exact Bool.or_eq_true_iff.mpr (Or.inl (anyNodeE_edgeFilter_le p Q c h))
    · exact Bool.or_eq_true_iff.mpr (Or.inr (ih h))

mutual

theorem allEdgesE_edgeFilter (Q R : EdgePred) (e : Element)
    (h : allEdgesE Q e = true) : allEdgesE Q (edgeFilterE R e) = true := by
  cases e with
  | mk t a tx cs =>
    simp only [edgeFilterE, allEdgesE] at h ⊢
    exact allEdgesL_edgeFilter Q R t cs h

theorem allEdgesL_edgeFilter (Q R : EdgePred) (pt : ByteStr) (cs : List Element)
    (h : allEdgesL Q pt cs = true) : allEdgesL Q pt (edgeFilterL R pt cs) = true := by
  cases cs with
  | nil => simp [edgeFilterL, allEdgesL]
  | cons c rest =>
    simp only [allEdgesL, Bool.and_eq_true] at h
    by_cases hr : R pt c.tag c.attrs
    · rw [show edgeFilterL R pt (c :: rest) = edgeFilterL R pt rest by
        simp [edgeFilterL, hr]]
      exact allEdgesL_edgeFilter Q R pt rest h.2
    · rw [show edgeFilterL R pt (c :: rest) = edgeFilterE R c :: edgeFilterL R pt rest by
        simp [edgeFilterL, hr]]
      simp only [allEdgesL, Bool.and_eq_true, edgeFilterE_tag, edgeFilterE_attrs]
      exact ⟨⟨h.1.1, allEdgesE_edgeFilter Q R c h.1.2⟩, allEdgesL_edgeFilter Q R pt rest h.2⟩

end

/-! Elimination of bad items and bad dependencies, leading to C3. -/

mutual

theorem badItem_filterE (ids : List ByteStr) (e : Element) :
    anyNodeE (badItemNode ids) (edgeFilterE (itemRefPred ids) e)
      = badItemNode ids e.tag e.attrs := by
  cases e with
  | mk t a tx cs =>
    simp only [edgeFilterE, anyNodeE, Element.tag, Element.attrs]
    rw [badItem_filterL ids t cs]
    exact Bool.or_false _

theorem badItem_filterL (ids : List ByteStr) (pt : ByteStr) (cs : List Element) :
    anyNodeL (badItemNode ids) (edgeFilterL (itemRefPred ids) pt cs) = false := by
  cases cs with
  | nil => rfl
  | cons c rest =>
    by_cases hq : itemRefPred ids pt c.tag c.attrs
    · rw [show edgeFilterL (itemRefPred ids) pt (c :: rest)
            = edgeFilterL (itemRefPred ids) pt rest by simp [edgeFilterL, hq]]
      exact badItem_filterL ids pt rest
    · rw [show edgeFilterL (itemRefPred ids) pt (c :: rest)
            = edgeFilterE (itemRefPred ids) c :: edgeFilterL (itemRefPred ids) pt rest by
          simp [edgeFilterL, hq]]
      simp only [anyNodeL]
      rw [badItem_filterE ids c, badItem_filterL ids pt rest]
      have : badItemNode ids c.tag c.attrs = false := by
        unfold badItemNode
        unfold itemRefPred at hq
        by_cases hl : hasLocalName strItem c.tag
        · have hsuf := hasLocalName_isSuffixOf strItem c.tag hl
          have : refInIds ids c.attrs = false := by
            cases hri : refInIds ids c.attrs
            · rfl
            · exact absurd (by unfold itemRefPred; rw [hsuf, hri]; rfl
                : itemRefPred ids pt c.tag c.attrs = true) hq
          simp [this]
        · simp [Bool.eq_false_iff.mpr hl]
      simp [this]

end

mutual

theorem badDep_filterE (ids : List ByteStr) (e : Element)
    (hedges : allEdgesE depParentOk e = true)
    (hself : badDepNode ids e.tag e.attrs = false) :
    anyNodeE (badDepNode ids) (edgeFilterE (depRefPred ids) e) = false := by
  cases e with
  | mk t a tx cs =>
    simp only [edgeFilterE, anyNodeE]
    simp only [allEdgesE] at hedges
    simp only [Element.tag, Element.attrs] at hself
    rw [hself, badDep_filterL ids t cs hedges]
    rfl

theorem badDep_filterL (ids : List ByteStr) (pt : ByteStr) (cs : List Element)
    (hedges : allEdgesL depParentOk pt cs = true) :
    anyNodeL (badDepNode ids) (edgeFilterL (depRefPred ids) pt cs) = false := by
  cases cs with
  | nil => rfl
  | cons c rest =>
    simp only [allEdgesL, Bool.and_eq_true] at hedges
    by_cases hq : depRefPred ids pt c.tag c.attrs
    · rw [show edgeFilterL (depRefPred ids) pt (c :: rest)
            = edgeFilterL (depRefPred ids) pt rest by simp [edgeFilterL, hq]]
      exact badDep_filterL ids pt rest hedges.2
    · rw [show edgeFilterL (depRefPred ids) pt (c :: rest)
            = edgeFilterE (depRefPred ids) c :: edgeFilterL (depRefPred ids) pt rest by
          simp [edgeFilterL, hq]]
      simp only [anyNodeL]
      have hcself : badDepNode ids c.tag c.attrs = false := by
        unfold badDepNode
        by_cases hdep : hasLocalName strDependency c.tag
        · have hres : hasLocalName strResource pt = true := by
            have := hedges.1.1
            unfold depParentOk at this
            rcases Bool.or_eq_true_iff.mp this with hcontra | hgood
            · rw [hdep] at hcontra; exact absurd hcontra (by simp)
            · exact hgood
          have : refInIds ids c.attrs = false := by
            cases hri : refInIds ids c.attrs
            · rfl
            · exact absurd (by unfold depRefPred; rw [hres, hdep, hri]; rfl
                : depRefPred ids pt c.tag c.attrs = true) hq
          simp [this]
        · simp [Bool.eq_false_iff.mpr hdep]
      rw [badDep_filterE ids c hedges.1.2 hcself, badDep_filterL ids pt rest hedges.2]
      rfl

end

theorem badDep_filter_mapL (ids : List ByteStr) (pt : ByteStr) (cs : List Element)
    (hnot_res : hasLocalName strResource pt = false)
    (hedges : allEdgesL depParentOk pt cs = true) :
    anyNodeL (badDepNode ids) (cs.map (edgeFilterE (depRefPred ids))) = false := by
  induction cs with
  | nil => rfl
  | cons c rest ih =>
    simp only [allEdgesL, Bool.and_eq_true] at hedges
    simp only [List.map, anyNodeL]
    have hcself : badDepNode ids c.tag c.attrs = false := by
      unfold badDepNode
      by_cases hdep : hasLocalName strDependency c.tag
      · have := hedges.1.1
        unfold depParentOk at this
        rcases Bool.or_eq_true_iff.mp this with hcontra | hgood
        · rw [hdep] at hcontra; simp at hcontra
        · rw [hgood] at hnot_res; simp at hnot_res
      · simp [Bool.eq_false_iff.mpr hdep]
    rw [badDep_filterE ids c hedges.1.2 hcself, ih hedges.2]
    rfl

/-- C3: after remove_items_referring_to then remove_dependencies_referring_to
run with any seed set of removed resource ids over a manifest tree whose
root is a manifest element and whose dependency elements all sit directly
under resource elements, the resulting tree has no item element whose
identifierref names a removed id and no dependency element whose
identifierref names a removed id. -/
theorem C3_removal_closure (ids : List ByteStr) (root : Element)
    (hroot : hasLocalName strManifest root.tag = true)
    (hdeps : allEdgesE depParentOk root = true) :
    anyNodeE (badItemNode ids)
      (remove_dependencies_referring_to ids (remove_items_referring_to ids root)) = false ∧
    anyNodeE (badDepNode ids)
      (remove_dependencies_referring_to ids (remove_items_referring_to ids root)) = false := by
  have hmanifest_ne : strManifest ≠ ([] : ByteStr) := by decide
  set r1 := remove_items_referring_to ids root with hr1
  have hr1tag : r1.tag = root.tag := edgeFilterE_tag _ _
  have hbadItem_r1 : anyNodeE (badItemNode ids) r1 = false := by
    rw [hr1, remove_items_referring_to, badItem_filterE]
    unfold badItemNode
    rw [hasLocalName_exclusive strManifest strItem root.tag hroot hmanifest_ne
      (by decide) (by decide)]
    rfl
  have hedges_r1 : allEdgesE depParentOk r1 = true :=
    allEdgesE_edgeFilter depParentOk (itemRefPred ids) root hdeps
  constructor
  · -- no bad item: the dependency pass only removes further elements
    cases hfinal : anyNodeE (badItemNode ids)
        (remove_dependencies_referring_to ids r1)
    · rfl
    · exfalso
      unfold remove_dependencies_referring_to at hfinal
      rw [anyNodeE_def] at hfinal
      simp only [tag_mk, attrs_mk, children_mk] at hfinal
      rw [anyNodeE_def] at hbadItem_r1
      rcases Bool.or_eq_true_iff.mp hfinal with h | h
      · rw [h] at hbadItem_r1
        simp at hbadItem_r1
      · have := anyNodeL_map_edgeFilter_le (badItemNode ids) (depRefPred ids)
          r1.children h
        rw [this] at hbadItem_r1
        simp at hbadItem_r1
  · -- no bad dependency
    unfold remove_dependencies_referring_to
    rw [anyNodeE_def]
    simp only [tag_mk, attrs_mk, children_mk]
    have hroot_not_dep : badDepNode ids r1.tag r1.attrs = false := by
      unfold badDepNode
      rw [hr1tag, hasLocalName_exclusive strManifest strDependency root.tag hroot
        hmanifest_ne (by decide) (by decide)]
      rfl
    rw [hroot_not_dep]
    have hnot_res : hasLocalName strResource r1.tag = false := by
      rw [hr1tag]
      exact hasLocalName_exclusive strManifest strResource root.tag hroot
        hmanifest_ne (by decide) (by decide)
    rw [badDep_filter_mapL ids r1.tag r1.children hnot_res
      (allEdgesE_children _ _ hedges_r1)]
    rfl

/-- Witness for C3: a concrete manifest with one organization item
referring to removed resource r2 and one dependency on r2. -/
theorem C3_removal_closure_witness :
    hasLocalName strManifest (witnessManifest.tag) = true ∧
    allEdgesE depParentOk witnessManifest = true ∧
    (anyNodeE (badItemNode [str "r2"])
      (remove_dependencies_referring_to [str "r2"]
        (remove_items_referring_to [str "r2"] witnessManifest)) = false ∧
     anyNodeE (badDepNode [str "r2"])
      (remove_dependencies_referring_to [str "r2"]
        (remove_items_referring_to [str "r2"] witnessManifest)) = false) :=
  ⟨by decide, by decide,
   C3_removal_closure [str "r2"] witnessManifest (by decide) (by decide)⟩

/-! Algebra of the full removal pass, leading to C4. -/

theorem contains_append (A B : List ByteStr) (x : ByteStr) :
    (A ++ B).contains x = (A.contains x || B.contains x) := by
  induction A with
  | nil => simp
  | cons a t ih =>
    simp only [List.cons_append, List.contains_cons, ih, Bool.or_assoc]

theorem refInIds_append (A B : List ByteStr) (ca : List (ByteStr × ByteStr)) :
    refInIds (A ++ B) ca = (refInIds A ca || refInIds B ca) := by
  unfold refInIds
  cases getAttr ca strIdentifierref with
  | none => rfl
  | some v => exact contains_append A B v

theorem itemRefPred_append (A B : List ByteStr) :
    orPred (itemRefPred A) (itemRefPred B) = itemRefPred (A ++ B) := by
  funext pt ct ca
  unfold orPred itemRefPred
  rw [refInIds_append]
  cases strItem.isSuffixOf ct <;> cases refInIds A ca <;> cases refInIds B ca <;> rfl

theorem depRefPred_append (A B : List ByteStr) :
    orPred (depRefPred A) (depRefPred B) = depRefPred (A ++ B) := by
  funext pt ct ca
  unfold orPred depRefPred
  rw [refInIds_append]
  cases hasLocalName strResource pt <;> cases hasLocalName strDependency ct <;>
    cases refInIds A ca <;> cases refInIds B ca <;> rfl

theorem resRemovePred_append (A B : List ByteStr) (c : Element) :
    resRemovePred (A ++ B) c = (resRemovePred A c || resRemovePred B c) := by
  unfold resRemovePred
  rw [contains_append]
  cases hasLocalName strResource c.tag <;>
    cases A.contains ((getAttr c.attrs strIdentifier).getD []) <;>
    cases B.contains ((getAttr c.attrs strIdentifier).getD []) <;> rfl

theorem filterResChildren_comp (A B : List ByteStr) (cs : List Element) :
    filterResChildren B (filterResChildren A cs) = filterResChildren (A ++ B) cs := by
  unfold filterResChildren
  rw [List.filter_filter]
  apply List.filter_congr
  intro c _
  rw [resRemovePred_append]
  cases resRemovePred A c <;> cases resRemovePred B c <;> rfl

theorem filterResChildren_self (A : List ByteStr) (cs : List Element) :
    filterResChildren (A ++ A) cs = filterResChildren A cs := by
  unfold filterResChildren
  apply List.filter_congr
  intro c _
  rw [resRemovePred_append]
  cases resRemovePred A c <;> rfl

theorem edgeFilterL_eq (P : EdgePred) (pt : ByteStr) (cs : List Element) :
    edgeFilterL P pt cs
      = (cs.filter (fun c => !(P pt c.tag c.attrs))).map (edgeFilterE P) := by
  induction cs with
  | nil => rfl
  | cons c rest ih =>
    by_cases hp : P pt c.tag c.attrs
    · rw [show edgeFilterL P pt (c :: rest) = edgeFilterL P pt rest by
        simp [edgeFilterL, hp]]
      rw [ih, List.filter_cons]
      simp [hp]
    · rw [show edgeFilterL P pt (c :: rest) = edgeFilterE P c :: edgeFilterL P pt rest by
        simp [edgeFilterL, hp]]
      rw [ih, List.filter_cons]
      simp [hp]

theorem resRemovePred_edgeFilterE (ids : List ByteStr) (P : EdgePred) (c : Element) :
    resRemovePred ids (edgeFilterE P c) = resRemovePred ids c := by
  unfold resRemovePred
  rw [edgeFilterE_tag, edgeFilterE_attrs]

theorem edgeFilterL_filterRes_comm (P : EdgePred) (ids : List ByteStr)
    (pt : ByteStr) (cs : List Element) :
    edgeFilterL P pt (filterResChildren ids cs)
      = filterResChildren ids (edgeFilterL P pt cs) := by
  rw [edgeFilterL_eq, edgeFilterL_eq]
  unfold filterResChildren
  rw [List.filter_map]
  congr 1
  rw [List.filter_filter, List.filter_filter]
  apply List.filter_congr
  intro c _
  have : (fun c => !resRemovePred ids c) (edgeFilterE P c) = !resRemovePred ids c := by
    simp only [resRemovePred_edgeFilterE]
  simp only [Function.comp_apply, this]
  cases hx : P pt c.tag c.attrs <;> cases hy : resRemovePred ids c <;> rfl

mutual

theorem removeResSelf_none (ids : List ByteStr) (e : Element)
    (h : anyNodeE isResourcesNode e = false) : removeResSelf ids e = none := by
  cases e with
  | mk t a tx cs =>
    simp only [anyNodeE, Bool.or_eq_false_iff] at h
    unfold removeResSelf
    rw [show hasLocalName strResources t = false from by
      have := h.1
      unfold isResourcesNode at this
      exact this]
    simp only [Bool.false_eq_true, if_false]
    rw [removeResList_none ids cs h.2]

theorem removeResList_none (ids : List ByteStr) (cs : List Element)
    (h : anyNodeL isResourcesNode cs = false) : removeResList ids cs = none := by
  cases cs with
  | nil => rfl
  | cons c rest =>
    simp only [anyNodeL, Bool.or_eq_false_iff] at h
    unfold removeResList
    rw [removeResSelf_none ids c h.1, removeResList_none ids rest h.2]

end

theorem removeResSelf_container (ids : List ByteStr) (c : Element)
    (hres : hasLocalName strResources c.tag = true) :
    removeResSelf ids c
      = some (.mk c.tag c.attrs c.text (filterResChildren ids c.children)) := by
  cases c with
  | mk t a tx cs2 =>
    simp only [tag_mk] at hres
    unfold removeResSelf
    rw [if_pos hres]
    rfl

theorem removeResList_scan (ids : List ByteStr) (cs : List Element)
    (h : firstContainerOkL cs = true) :
    removeResList ids cs = some (resFilterAtL ids cs) := by
  induction cs with
  | nil => simp [firstContainerOkL] at h
  | cons c rest ih =>
    by_cases hAny : anyNodeE isResourcesNode c
    · have hres : hasLocalName strResources c.tag = true := by
        rwa [firstContainerOkL_cons_pos c rest hAny] at h
      rw [resFilterAtL_cons_pos ids c rest hAny]
      unfold removeResList
      rw [removeResSelf_container ids c hres]
    · have hAny2 : anyNodeE isResourcesNode c = false := Bool.eq_false_iff.mpr hAny
      have hscan : firstContainerOkL rest = true := by
        rwa [firstContainerOkL_cons_neg c rest hAny2] at h
      rw [resFilterAtL_cons_neg ids c rest hAny2]
      unfold removeResList
      rw [removeResSelf_none ids c hAny2, ih hscan]

theorem remove_resources_eq (ids : List ByteStr) (root : Element)
    (h : firstContainerOk root = true) :
    remove_resources ids root
      = .mk root.tag root.attrs root.text (resFilterAtL ids root.children) := by
  unfold remove_resources
  rw [removeResList_scan ids root.children h]

theorem anyNodeE_of_tag (p : ByteStr → List (ByteStr × ByteStr) → Bool) (e : Element)
    (h : p e.tag e.attrs = true) : anyNodeE p e = true := by
  rw [anyNodeE_def, h]
  rfl

theorem anyNodeE_edgeFilter_false (p : ByteStr → List (ByteStr × ByteStr) → Bool)
    (Q : EdgePred) (e : Element) (h : anyNodeE p e = false) :
    anyNodeE p (edgeFilterE Q e) = false := by
  cases hx : anyNodeE p (edgeFilterE Q e)
  · rfl
  · rw [anyNodeE_edgeFilter_le p Q e hx] at h
    exact h

theorem scan_edgeFilterL (P : EdgePred) (pt : ByteStr) (cs : List Element)
    (hP : ∀ ct ca, hasLocalName strResources ct = true → P pt ct ca = false)
    (h : firstContainerOkL cs = true) :
    firstContainerOkL (edgeFilterL P pt cs) = true := by
  induction cs with
  | nil => simp [firstContainerOkL] at h
  | cons c rest ih =>
    by_cases hAny : anyNodeE isResourcesNode c
    · have hres : hasLocalName strResources c.tag = true := by
        rwa [firstContainerOkL_cons_pos c rest hAny] at h
      rw [edgeFilterL_cons_neg P pt c rest (hP c.tag c.attrs hres)]
      rw [firstContainerOkL_cons_pos _ _ (anyNodeE_of_tag isResourcesNode
        (edgeFilterE P c) (by rw [edgeFilterE_tag]; exact hres))]
      rw [edgeFilterE_tag]
      exact hres
    · have hAny2 : anyNodeE isResourcesNode c = false := Bool.eq_false_iff.mpr hAny
      have hscan : firstContainerOkL rest = true := by
        rwa [firstContainerOkL_cons_neg c rest hAny2] at h
      by_cases hp : P pt c.tag c.attrs
      · rw [edgeFilterL_cons_pos P pt c rest hp]
        exact ih hscan
      · rw [edgeFilterL_cons_neg P pt c rest (Bool.eq_false_iff.mpr hp)]
        rw [firstContainerOkL_cons_neg _ _
          (anyNodeE_edgeFilter_false isResourcesNode P c hAny2)]
        exact ih hscan

theorem scan_map_edgeFilter (P : EdgePred) (cs : List Element)
    (h : firstContainerOkL cs = true) :
    firstContainerOkL (cs.map (edgeFilterE P)) = true := by
  induction cs with
  | nil => simp [firstContainerOkL] at h
  | cons c rest ih =>
    simp only [List.map]
    by_cases hAny : anyNodeE isResourcesNode c
    · have hres : hasLocalName strResources c.tag = true := by
        rwa [firstContainerOkL_cons_pos c rest hAny] at h
      rw [firstContainerOkL_cons_pos _ _ (anyNodeE_of_tag isResourcesNode
        (edgeFilterE P c) (by rw [edgeFilterE_tag]; exact hres))]
      rw [edgeFilterE_tag]
      exact hres
    · have hAny2 : anyNodeE isResourcesNode c = false := Bool.eq_false_iff.mpr hAny
      have hscan : firstContainerOkL rest = true := by
        rwa [firstContainerOkL_cons_neg c rest hAny2] at h
      rw [firstContainerOkL_cons_neg _ _
        (anyNodeE_edgeFilter_false isResourcesNode P c hAny2)]
      exact ih hscan

theorem scan_resFilterAtL (ids : List ByteStr) (cs : List Element)
    (h : firstContainerOkL cs = true) :
    firstContainerOkL (resFilterAtL ids cs) = true := by
  induction cs with
  | nil => simp [firstContainerOkL] at h
  | cons c rest ih =>
    by_cases hAny : anyNodeE isResourcesNode c
    · have hres : hasLocalName strResources c.tag = true := by
        rwa [firstContainerOkL_cons_pos c rest hAny] at h
      rw [resFilterAtL_cons_pos ids c rest hAny]
      rw [firstContainerOkL_cons_pos _ _ (anyNodeE_of_tag isResourcesNode _
        (by rw [tag_mk]; exact hres))]
      rw [tag_mk]
      exact hres
    · have hAny2 : anyNodeE isResourcesNode c = false := Bool.eq_false_iff.mpr hAny
      have hscan : firstContainerOkL rest = true := by
        rwa [firstContainerOkL_cons_neg c rest hAny2] at h
      rw [resFilterAtL_cons_neg ids c rest hAny2]
      rw [firstContainerOkL_cons_neg _ _ hAny2]
      exact ih hscan

theorem edgeFilterE_text (P : EdgePred) (e : Element) : (edgeFilterE P e).text = e.text := by
  cases e; rfl

theorem edgeFilterE_children (P : EdgePred) (e : Element) :
    (edgeFilterE P e).children = edgeFilterL P e.tag e.children := by
  cases e; rfl

theorem edgeFilterE_mk (P : EdgePred) (t : ByteStr) (a : List (ByteStr × ByteStr))
    (tx : ByteStr) (cs : List Element) :
    edgeFilterE P (.mk t a tx cs) = .mk t a tx (edgeFilterL P t cs) := rfl

theorem itemRefPred_resources_false (ids : List ByteStr) (pt ct : ByteStr)
    (ca : List (ByteStr × ByteStr)) (hres : hasLocalName strResources ct = true) :
    itemRefPred ids pt ct ca = false := by
  unfold itemRefPred
  rw [isSuffixOf_getLast_exclusive strResources strItem ct hres (by decide) (by decide)
    (by decide)]
  rfl

theorem edgeFilterL_resFilterAtL_comm (P : EdgePred) (ids : List ByteStr)
    (pt : ByteStr) (cs : List Element)
    (hP : ∀ ct ca, hasLocalName strResources ct = true → P pt ct ca = false)
    (h : firstContainerOkL cs = true) :
    edgeFilterL P pt (resFilterAtL ids cs) = resFilterAtL ids (edgeFilterL P pt cs) := by
  induction cs with
  | nil => rfl
  | cons c rest ih =>
    by_cases hAny : anyNodeE isResourcesNode c
    · have hres : hasLocalName strResources c.tag = true := by
        rwa [firstContainerOkL_cons_pos c rest hAny] at h
      rw [resFilterAtL_cons_pos ids c rest hAny]
      rw [edgeFilterL_cons_neg P pt _ rest (by rw [tag_mk, attrs_mk]; exact hP _ _ hres)]
      rw [edgeFilterL_cons_neg P pt c rest (hP _ _ hres)]
      rw [resFilterAtL_cons_pos ids (edgeFilterE P c) _ (anyNodeE_of_tag _ _ (by
        rw [edgeFilterE_tag]; exact hres))]
      congr 1
      rw [edgeFilterE_mk, edgeFilterE_tag, edgeFilterE_attrs, edgeFilterE_text,
        edgeFilterE_children, edgeFilterL_filterRes_comm]
    · have hAny2 : anyNodeE isResourcesNode c = false := Bool.eq_false_iff.mpr hAny
      have hscan : firstContainerOkL rest = true := by
        rwa [firstContainerOkL_cons_neg c rest hAny2] at h
      rw [resFilterAtL_cons_neg ids c rest hAny2]
      by_cases hp : P pt c.tag c.attrs
      · rw [edgeFilterL_cons_pos P pt c _ hp, edgeFilterL_cons_pos P pt c _ hp]
        exact ih hscan
      · rw [edgeFilterL_cons_neg P pt c _ (Bool.eq_false_iff.mpr hp),
          edgeFilterL_cons_neg P pt c _ (Bool.eq_false_iff.mpr hp)]
        rw [resFilterAtL_cons_neg ids (edgeFilterE P c) _
          (anyNodeE_edgeFilter_false isResourcesNode P c hAny2)]
        rw [ih hscan]

theorem map_edgeFilterE_resFilterAtL_comm (P : EdgePred) (ids : List ByteStr)
    (cs : List Element) (h : firstContainerOkL cs = true) :
    (resFilterAtL ids cs).map (edgeFilterE P)
      = resFilterAtL ids (cs.map (edgeFilterE P)) := by
  induction cs with
  | nil => rfl
  | cons c rest ih =>
    by_cases hAny : anyNodeE isResourcesNode c
    · have hres : hasLocalName strResources c.tag = true := by
        rwa [firstContainerOkL_cons_pos c rest hAny] at h
      rw [resFilterAtL_cons_pos ids c rest hAny]
      simp only [List.map]
      rw [resFilterAtL_cons_pos ids (edgeFilterE P c) _ (anyNodeE_of_tag _ _ (by
        rw [edgeFilterE_tag]; exact hres))]
      congr 1
      rw [edgeFilterE_mk, edgeFilterE_tag, edgeFilterE_attrs, edgeFilterE_text,
        edgeFilterE_children, edgeFilterL_filterRes_comm]
    · have hAny2 : anyNodeE isResourcesNode c = false := Bool.eq_false_iff.mpr hAny
      have hscan : firstContainerOkL rest = true := by
        rwa [firstContainerOkL_cons_neg c rest hAny2] at h
      rw [resFilterAtL_cons_neg ids c rest hAny2]
      simp only [List.map]
      rw [resFilterAtL_cons_neg ids (edgeFilterE P c) _
        (anyNodeE_edgeFilter_false isResourcesNode P c hAny2)]
      rw [ih hscan]

theorem edgeFilterL_map_comm (P Q : EdgePred) (pt : ByteStr) (cs : List Element) :
    edgeFilterL P pt (cs.map (edgeFilterE Q))
      = (edgeFilterL P pt cs).map (edgeFilterE Q) := by
  induction cs with
  | nil => rfl
  | cons c rest ih =>
    simp only [List.map]
    by_cases hp : P pt c.tag c.attrs
    · rw [edgeFilterL_cons_pos P pt (edgeFilterE Q c) _ (by
        rw [edgeFilterE_tag, edgeFilterE_attrs]; exact hp)]
      rw [edgeFilterL_cons_pos P pt c rest hp]
      exact ih
    · rw [edgeFilterL_cons_neg P pt (edgeFilterE Q c) _ (by
        rw [edgeFilterE_tag, edgeFilterE_attrs]; exact Bool.eq_false_iff.mpr hp)]
      rw [edgeFilterL_cons_neg P pt c rest (Bool.eq_false_iff.mpr hp)]
      simp only [List.map]
      rw [ih]
      congr 1
      rw [edgeFilterE_comp, edgeFilterE_comp, orPred_comm]

theorem resFilterAtL_comp (A B : List ByteStr) (cs : List Element)
    (h : firstContainerOkL cs = true) :
    resFilterAtL B (resFilterAtL A cs) = resFilterAtL (A ++ B) cs := by
  induction cs with
  | nil => rfl
  | cons c rest ih =>
    by_cases hAny : anyNodeE isResourcesNode c
    · have hres : hasLocalName strResources c.tag = true := by
        rwa [firstContainerOkL_cons_pos c rest hAny] at h
      rw [resFilterAtL_cons_pos A c rest hAny]
      rw [resFilterAtL_cons_pos B _ rest (anyNodeE_of_tag _ _ (by
        rw [tag_mk]; exact hres))]
      rw [resFilterAtL_cons_pos (A ++ B) c rest hAny]
      simp only [tag_mk, attrs_mk, text_mk, children_mk]
      rw [filterResChildren_comp]
    · have hAny2 : anyNodeE isResourcesNode c = false := Bool.eq_false_iff.mpr hAny
      have hscan : firstContainerOkL rest = true := by
        rwa [firstContainerOkL_cons_neg c rest hAny2] at h
      rw [resFilterAtL_cons_neg A c rest hAny2, resFilterAtL_cons_neg B c _ hAny2,
        resFilterAtL_cons_neg (A ++ B) c rest hAny2, ih hscan]

theorem resFilterAtL_self (A : List ByteStr) (cs : List Element) :
    resFilterAtL (A ++ A) cs = resFilterAtL A cs := by
  induction cs with
  | nil => rfl
  | cons c rest ih =>
    by_cases hAny : anyNodeE isResourcesNode c
    · rw [resFilterAtL_cons_pos (A ++ A) c rest hAny, resFilterAtL_cons_pos A c rest hAny,
        filterResChildren_self]
    · have hAny2 : anyNodeE isResourcesNode c = false := Bool.eq_false_iff.mpr hAny
      rw [resFilterAtL_cons_neg (A ++ A) c rest hAny2, resFilterAtL_cons_neg A c rest hAny2,
        ih]

theorem removalPass_eq (ids : List ByteStr) (root : Element)
    (h : firstContainerOk root = true) :
    removalPass ids root
      = .mk root.tag root.attrs root.text (passListNF ids root.tag root.children) := by
  unfold removalPass
  rw [remove_resources_eq ids root h]
  unfold remove_items_referring_to
  rw [edgeFilterE_mk]
  unfold remove_dependencies_referring_to
  simp only [tag_mk, attrs_mk, text_mk, children_mk]
  unfold passListNF
  rfl

theorem passListNF_scan (ids : List ByteStr) (pt : ByteStr) (cs : List Element)
    (h : firstContainerOkL cs = true) :
    firstContainerOkL (passListNF ids pt cs) = true := by
  unfold passListNF
  exact scan_map_edgeFilter _ _
    (scan_edgeFilterL _ _ _ (fun ct ca hres => itemRefPred_resources_false ids pt ct ca hres)
      (scan_resFilterAtL ids cs h))

theorem passListNF_comp (A B : List ByteStr) (pt : ByteStr) (cs : List Element)
    (h : firstContainerOkL cs = true) :
    passListNF B pt (passListNF A pt cs) = passListNF (A ++ B) pt cs := by
  have hscan1 : firstContainerOkL (resFilterAtL A cs) = true := scan_resFilterAtL A cs h
  have hscan2 : firstContainerOkL (edgeFilterL (itemRefPred A) pt (resFilterAtL A cs)) = true :=
    scan_edgeFilterL _ _ _ (fun ct ca hres => itemRefPred_resources_false A pt ct ca hres)
      hscan1
  unfold passListNF
  -- move the second resource deletion inward, through the dependency map
  -- and the item filter of the first pass
  rw [show resFilterAtL B
        ((edgeFilterL (itemRefPred A) pt (resFilterAtL A cs)).map
          (edgeFilterE (depRefPred A)))
      = (resFilterAtL B (edgeFilterL (itemRefPred A) pt (resFilterAtL A cs))).map
          (edgeFilterE (depRefPred A)) from
    (map_edgeFilterE_resFilterAtL_comm (depRefPred A) B _ hscan2).symm]
  rw [show resFilterAtL B (edgeFilterL (itemRefPred A) pt (resFilterAtL A cs))
      = edgeFilterL (itemRefPred A) pt (resFilterAtL B (resFilterAtL A cs)) from
    (edgeFilterL_resFilterAtL_comm (itemRefPred A) B pt _
      (fun ct ca hres => itemRefPred_resources_false A pt ct ca hres) hscan1).symm]
  rw [resFilterAtL_comp A B cs h]
  -- move the second item filter through the dependency map of the first pass
  rw [edgeFilterL_map_comm (itemRefPred B) (depRefPred A) pt _]
  -- fuse the two item filters
  rw [edgeFilterL_comp (itemRefPred B) (itemRefPred A) pt _, itemRefPred_append A B]
  -- fuse the two dependency maps
  rw [List.map_map]
  have hfuse : (edgeFilterE (depRefPred B)) ∘ (edgeFilterE (depRefPred A))
      = edgeFilterE (depRefPred (A ++ B)) := by
    funext c
    rw [Function.comp_apply, edgeFilterE_comp, depRefPred_append]
  rw [hfuse]

/-- C4: on a manifest whose single resources container is a direct child
of the root (firstContainerOk), the removal pass is composable and
idempotent: running it with seed set A and then seed set B produces
exactly the tree of a single run with the union seed set, and repeating
a run with the same set changes nothing further. -/
theorem C4_removal_pass_composable (A B : List ByteStr) (root : Element)
    (h : firstContainerOk root = true) :
    removalPass B (removalPass A root) = removalPass (A ++ B) root ∧
    removalPass A (removalPass A root) = removalPass A root := by
  have hc : firstContainerOkL root.children = true := by
    unfold firstContainerOk at h
    exact h
  have hcomp : ∀ X Y : List ByteStr,
      removalPass Y (removalPass X root) = removalPass (X ++ Y) root := by
    intro X Y
    have h1 : firstContainerOk (removalPass X root) = true := by
      rw [removalPass_eq X root h]
      unfold firstContainerOk
      simp only [children_mk]
      exact passListNF_scan X root.tag root.children hc
    rw [removalPass_eq Y _ h1, removalPass_eq X root h, removalPass_eq (X ++ Y) root h]
    simp only [tag_mk, attrs_mk, text_mk, children_mk]
    rw [passListNF_comp X Y root.tag root.children hc]
  refine ⟨hcomp A B, ?_⟩
  rw [hcomp A A]
  rw [removalPass_eq (A ++ A) root h, removalPass_eq A root h]
  unfold passListNF
  rw [resFilterAtL_self,
    show itemRefPred (A ++ A) = itemRefPred A from by
      rw [← itemRefPred_append A A, orPred_self],
    show depRefPred (A ++ A) = depRefPred A from by
      rw [← depRefPred_append A A, orPred_self]]

/-- Witness for C4 at the concrete manifest, with seed sets r1 and r2. -/
theorem C4_removal_pass_composable_witness :
    firstContainerOk witnessManifest = true ∧
    (removalPass [str "r2"] (removalPass [str "r1"] witnessManifest)
        = removalPass ([str "r1"] ++ [str "r2"]) witnessManifest ∧
     removalPass [str "r1"] (removalPass [str "r1"] witnessManifest)
        = removalPass [str "r1"] witnessManifest) :=
  ⟨by decide, C4_removal_pass_composable [str "r1"] [str "r2"] witnessManifest (by decide)⟩

/-! Lemmas about the item pruner, leading to C9. -/

theorem pruneCtxE_mk (valid : List ByteStr) (ctx : Bool) (t : ByteStr)
    (a : List (ByteStr × ByteStr)) (tx : ByteStr) (cs : List Element) :
    pruneCtxE valid ctx (.mk t a tx cs) = .mk t a tx (pruneCtxL valid ctx cs) := rfl

theorem collectResIdsL_cons (c : Element) (rest : List Element) :
    collectResIdsL (c :: rest) = collectResIdsE c ++ collectResIdsL rest := rfl

theorem itemsOkL_cons (valid : List ByteStr) (c : Element) (rest : List Element) :
    itemsOkL valid (c :: rest) = (itemsOkE valid c && itemsOkL valid rest) := rfl

theorem itemsOkE_mk (valid : List ByteStr) (t : ByteStr) (a : List (ByteStr × ByteStr))
    (tx : ByteStr) (cs : List Element) :
    itemsOkE valid (.mk t a tx cs)
      = (itemInvariant valid (.mk t a tx cs) && itemsOkL valid cs) := rfl

theorem pruneCtxL_cons_else (valid : List ByteStr) (ctx : Bool) (c : Element)
    (rest : List Element) (h : (ctx && isItemTag c.tag) = false) :
    pruneCtxL valid ctx (c :: rest)
      = pruneCtxE valid (isOrgTag c.tag) c :: pruneCtxL valid ctx rest := by
  conv_lhs => unfold pruneCtxL
  rw [if_neg (by rw [h]; simp)]

theorem pruneCtxL_cons_drop_ref (valid : List ByteStr) (ctx : Bool) (c : Element)
    (rest : List Element) (hitem : (ctx && isItemTag c.tag) = true)
    (h1 : (refOf c != [] && !(valid.contains (refOf c))) = true) :
    pruneCtxL valid ctx (c :: rest) = pruneCtxL valid ctx rest := by
  conv_lhs => unfold pruneCtxL
  rw [if_pos hitem, if_pos h1]

theorem pruneCtxL_cons_drop_vac (valid : List ByteStr) (ctx : Bool) (c : Element)
    (rest : List Element) (hitem : (ctx && isItemTag c.tag) = true)
    (h1 : (refOf c != [] && !(valid.contains (refOf c))) = false)
    (h2 : (refOf c == []
      && !((pruneCtxE valid true c).children.any (fun g => isItemTag g.tag))) = true) :
    pruneCtxL valid ctx (c :: rest) = pruneCtxL valid ctx rest := by
  conv_lhs => unfold pruneCtxL
  rw [if_pos hitem, if_neg (by rw [h1]; simp), if_pos h2]

theorem pruneCtxL_cons_keep (valid : List ByteStr) (ctx : Bool) (c : Element)
    (rest : List Element) (hitem : (ctx && isItemTag c.tag) = true)
    (h1 : (refOf c != [] && !(valid.contains (refOf c))) = false)
    (h2 : (refOf c == []
      && !((pruneCtxE valid true c).children.any (fun g => isItemTag g.tag))) = false) :
    pruneCtxL valid ctx (c :: rest)
      = pruneCtxE valid true c :: pruneCtxL valid ctx rest := by
  conv_lhs => unfold pruneCtxL
  rw [if_pos hitem, if_neg (by rw [h1]; simp), if_neg (by rw [h2]; simp)]

theorem item_not_resource (t : ByteStr) (h : isItemTag t = true) :
    hasLocalName strResource t = false :=
  hasLocalName_exclusive strItem strResource t h (by decide) (by decide) (by decide)

theorem manifest_not_org_item (t : ByteStr) (h : hasLocalName strManifest t = true) :
    (isOrgTag t || isItemTag t) = false := by
  unfold isOrgTag isItemTag
  rw [hasLocalName_exclusive strManifest strOrganization t h (by decide) (by decide)
    (by decide)]
  rw [hasLocalName_exclusive strManifest strItem t h (by decide) (by decide) (by decide)]
  rfl

mutual

theorem collectE_nil (c : Element) (h : anyNodeE isResourceNode c = false) :
    collectResIdsE c = [] := by
  cases c with
  | mk t a tx cs =>
    rw [anyNodeE_def, Bool.or_eq_false_iff] at h
    unfold collectResIdsE
    rw [show hasLocalName strResource t = false from h.1]
    simp only [Bool.false_eq_true, if_false, List.nil_append]
    exact collectL_nil cs (by simpa [children_mk] using h.2)

theorem collectL_nil (cs : List Element) (h : anyNodeL isResourceNode cs = false) :
    collectResIdsL cs = [] := by
  cases cs with
  | nil => rfl
  | cons c rest =>
    simp only [anyNodeL, Bool.or_eq_false_iff] at h
    unfold collectResIdsL
    rw [collectE_nil c h.1, collectL_nil rest h.2]
    rfl

end

mutual

theorem pruneCtxE_collect (valid : List ByteStr) (ctx : Bool) (c : Element)
    (h : noResUnderItemE c = true) :
    collectResIdsE (pruneCtxE valid ctx c) = collectResIdsE c := by
  cases c with
  | mk t a tx cs =>
    rw [pruneCtxE_mk]
    unfold collectResIdsE
    simp only [noResUnderItemE, Bool.and_eq_true] at h
    rw [pruneCtxL_collect valid ctx cs h.2]

theorem pruneCtxL_collect (valid : List ByteStr) (ctx : Bool) (cs : List Element)
    (h : noResUnderItemL cs = true) :
    collectResIdsL (pruneCtxL valid ctx cs) = collectResIdsL cs := by
  cases cs with
  | nil => rfl
  | cons c rest =>
    simp only [noResUnderItemL, Bool.and_eq_true] at h
    have hcollect_c_drop : isItemTag c.tag = true → collectResIdsE c = [] := by
      intro hit
      have hnr : anyNodeL isResourceNode c.children = false := by
        have := h.1
        cases c with
        | mk t a tx ccs =>
          simp only [noResUnderItemE, Bool.and_eq_true] at this
          have h1 := this.1
          simp only [tag_mk] at hit
          rw [if_pos (by rwa [isItemTag] at hit)] at h1
          simpa using h1
      cases c with
      | mk t a tx ccs =>
        unfold collectResIdsE
        simp only [tag_mk] at hit
        rw [item_not_resource t hit]
        simp only [Bool.false_eq_true, if_false, List.nil_append]
        exact collectL_nil ccs (by simpa [children_mk] using hnr)
    by_cases hitem : (ctx && isItemTag c.tag) = true
    · by_cases h1 : (refOf c != [] && !(valid.contains (refOf c))) = true
      · rw [pruneCtxL_cons_drop_ref valid ctx c rest hitem h1]
        rw [pruneCtxL_collect valid ctx rest h.2]
        rw [collectResIdsL_cons, hcollect_c_drop (by
          have := hitem
          simp only [Bool.and_eq_true] at this
          exact this.2)]
        rfl
      · by_cases h2 : (refOf c == []
            && !((pruneCtxE valid true c).children.any (fun g => isItemTag g.tag))) = true
        · rw [pruneCtxL_cons_drop_vac valid ctx c rest hitem
            (Bool.eq_false_iff.mpr h1) h2]
          rw [pruneCtxL_collect valid ctx rest h.2]
          rw [collectResIdsL_cons, hcollect_c_drop (by
            have := hitem
            simp only [Bool.and_eq_true] at this
            exact this.2)]
          rfl
        · rw [pruneCtxL_cons_keep valid ctx c rest hitem
            (Bool.eq_false_iff.mpr h1) (Bool.eq_false_iff.mpr h2)]
          rw [collectResIdsL_cons, collectResIdsL_cons,
            pruneCtxE_collect valid true c h.1, pruneCtxL_collect valid ctx rest h.2]
    · rw [pruneCtxL_cons_else valid ctx c rest (Bool.eq_false_iff.mpr hitem)]
      rw [collectResIdsL_cons, collectResIdsL_cons,
        pruneCtxE_collect valid (isOrgTag c.tag) c h.1,
        pruneCtxL_collect valid ctx rest h.2]

end

mutual

theorem pruneCtxE_itemsOk (valid : List ByteStr) (cctx : Bool) (e : Element)
    (hedges : allEdgesE itemParentPred e = true)
    (hp : (isOrgTag e.tag || isItemTag e.tag) = true → cctx = true) :
    itemsOkL valid (pruneCtxL valid cctx e.children) = true := by
  cases e with
  | mk t a tx cs =>
    exact pruneCtxL_itemsOk valid cctx t cs (by simpa [allEdgesE] using hedges)
      (fun hd => hp (by simpa [tag_mk] using hd))

theorem pruneCtxL_itemsOk (valid : List ByteStr) (ctx : Bool) (ptag : ByteStr)
    (cs : List Element)
    (hedges : allEdgesL itemParentPred ptag cs = true)
    (hp : (isOrgTag ptag || isItemTag ptag) = true → ctx = true) :
    itemsOkL valid (pruneCtxL valid ctx cs) = true := by
  cases cs with
  | nil => rfl
  | cons c rest =>
    simp only [allEdgesL, Bool.and_eq_true] at hedges
    obtain ⟨⟨hQ, hE⟩, hrest⟩ := hedges
    have hrestOk : itemsOkL valid (pruneCtxL valid ctx rest) = true :=
      pruneCtxL_itemsOk valid ctx ptag rest hrest hp
    by_cases hitem : (ctx && isItemTag c.tag) = true
    · by_cases h1 : (refOf c != [] && !(valid.contains (refOf c))) = true
      · rw [pruneCtxL_cons_drop_ref valid ctx c rest hitem h1]
        exact hrestOk
      · by_cases h2 : (refOf c == []
            && !((pruneCtxE valid true c).children.any (fun g => isItemTag g.tag))) = true
        · rw [pruneCtxL_cons_drop_vac valid ctx c rest hitem
            (Bool.eq_false_iff.mpr h1) h2]
          exact hrestOk
        · rw [pruneCtxL_cons_keep valid ctx c rest hitem
            (Bool.eq_false_iff.mpr h1) (Bool.eq_false_iff.mpr h2)]
          rw [itemsOkL_cons]
          have hchildren : itemsOkL valid (pruneCtxL valid true c.children) = true :=
            pruneCtxE_itemsOk valid true c hE (fun _ => rfl)
          have hokE : itemsOkE valid (pruneCtxE valid true c) = true := by
            obtain ⟨t, a, tx, ccs⟩ := c
            rw [pruneCtxE_mk, itemsOkE_mk]
            have hinv : itemInvariant valid
                (.mk t a tx (pruneCtxL valid true ccs)) = true := by
              unfold itemInvariant
              rw [show refOf (Element.mk t a tx (pruneCtxL valid true ccs))
                  = refOf (Element.mk t a tx ccs) from rfl]
              by_cases hr : refOf (Element.mk t a tx ccs) = []
              · have hany : ((pruneCtxE valid true (Element.mk t a tx ccs)).children.any
                    (fun g => isItemTag g.tag)) = true := by
                  cases hx : ((pruneCtxE valid true (Element.mk t a tx ccs)).children.any
                      (fun g => isItemTag g.tag))
                  · exact absurd h2 (by rw [hr, hx]; simp)
                  · rfl
                rw [pruneCtxE_mk, children_mk] at hany
                rw [hr]
                simp [children_mk, hany]
              · have hcont : valid.contains (refOf (Element.mk t a tx ccs)) = true := by
                  cases hcc : valid.contains (refOf (Element.mk t a tx ccs))
                  · exact absurd h1 (by
                      rw [hcc]
                      rw [show (refOf (Element.mk t a tx ccs) != []) = true from by
                        simpa using hr]
                      simp)
                  · rfl
                rw [show (refOf (Element.mk t a tx ccs) != []) = true from by
                  simpa using hr]
                simp only [if_true]
                rw [hcont]
                simp
            rw [hinv]
            rw [show itemsOkL valid (pruneCtxL valid true ccs) = true from hchildren]
            rfl
          rw [hokE, hrestOk]
          rfl
    · have hitem2 : (ctx && isItemTag c.tag) = false := Bool.eq_false_iff.mpr hitem
      have hnotitem : isItemTag c.tag = false := by
        cases hx : isItemTag c.tag
        · rfl
        · -- an item child in an unpruned context contradicts the edge shape
          unfold itemParentPred at hQ
          rw [hx] at hQ
          simp only [Bool.not_true, Bool.false_or] at hQ
          have hctx : ctx = true := hp hQ
          rw [hctx, hx] at hitem2
          simp at hitem2
      rw [pruneCtxL_cons_else valid ctx c rest hitem2]
      rw [itemsOkL_cons]
      have hchildren : itemsOkL valid (pruneCtxL valid (isOrgTag c.tag) c.children) = true :=
        pruneCtxE_itemsOk valid (isOrgTag c.tag) c hE (by
          intro hdisj
          rw [hnotitem] at hdisj
          simpa using hdisj)
      have hokE : itemsOkE valid (pruneCtxE valid (isOrgTag c.tag) c) = true := by
        obtain ⟨t, a, tx, ccs⟩ := c
        rw [pruneCtxE_mk, itemsOkE_mk]
        have hinv : itemInvariant valid
            (.mk t a tx (pruneCtxL valid (isOrgTag (Element.mk t a tx ccs).tag) ccs)) = true := by
          unfold itemInvariant
          rw [show isItemTag (Element.mk t a tx
              (pruneCtxL valid (isOrgTag (Element.mk t a tx ccs).tag) ccs)).tag
            = isItemTag (Element.mk t a tx ccs).tag from rfl, hnotitem]
          simp
        rw [hinv]
        rw [show itemsOkL valid (pruneCtxL valid (isOrgTag (Element.mk t a tx ccs).tag) ccs)
            = true from hchildren]
        rfl
      rw [hokE, hrestOk]
      rfl

end

/-- C9: after prune_items_with_missing_resources runs over a manifest
whose root is a manifest element, whose item elements only occur under
organizations or other items, and whose items contain no resource
elements, every remaining item either names a resource existing in the
final manifest or has no identifierref and at least one item child; and
the resource identifiers of the manifest are unchanged. -/
theorem C9_prune_items_invariant (root : Element)
    (hroot : hasLocalName strManifest root.tag = true)
    (hedges : allEdgesE itemParentPred root = true)
    (hnr : noResUnderItemE root = true) :
    itemsOkE (collectResourceIds (prune_items_with_missing_resources root))
      (prune_items_with_missing_resources root) = true ∧
    collectResourceIds (prune_items_with_missing_resources root)
      = collectResourceIds root := by
  have hnrl : noResUnderItemL root.children = true := by
    cases root with
    | mk t a tx cs =>
      simp only [noResUnderItemE, Bool.and_eq_true] at hnr
      simpa [children_mk] using hnr.2
  have hcollect : collectResourceIds (prune_items_with_missing_resources root)
      = collectResourceIds root := by
    unfold prune_items_with_missing_resources collectResourceIds
    rw [children_mk]
    exact pruneCtxL_collect (collectResIdsL root.children) false root.children hnrl
  refine ⟨?_, hcollect⟩
  rw [hcollect]
  unfold prune_items_with_missing_resources
  rw [itemsOkE_mk]
  have hinv : itemInvariant (collectResourceIds root)
      (.mk root.tag root.attrs root.text
        (pruneCtxL (collectResourceIds root) false root.children)) = true := by
    unfold itemInvariant
    rw [show isItemTag (Element.mk root.tag root.attrs root.text
        (pruneCtxL (collectResourceIds root) false root.children)).tag
      = isItemTag root.tag from rfl]
    have : isItemTag root.tag = false := by
      have := manifest_not_org_item root.tag hroot
      cases hx : isItemTag root.tag
      · rfl
      · rw [hx] at this
        simp at this
    rw [this]
    simp
  rw [hinv]
  have hchildren : itemsOkL (collectResourceIds root)
      (pruneCtxL (collectResourceIds root) false root.children) = true :=
    pruneCtxL_itemsOk (collectResourceIds root) false root.tag root.children
      (allEdgesE_children itemParentPred root hedges)
      (by
        intro hdisj
        rw [manifest_not_org_item root.tag hroot] at hdisj
        simp at hdisj)
  rw [hchildren]
  rfl

/-- Witness for C9: a manifest with an organization holding a valid
item, an item with a dangling reference, and a vacuous container item. -/
theorem C9_prune_items_invariant_witness :
    hasLocalName strManifest pruneWitness.tag = true ∧
    allEdgesE itemParentPred pruneWitness = true ∧
    noResUnderItemE pruneWitness = true ∧
    (itemsOkE (collectResourceIds (prune_items_with_missing_resources pruneWitness))
       (prune_items_with_missing_resources pruneWitness) = true ∧
     collectResourceIds (prune_items_with_missing_resources pruneWitness)
       = collectResourceIds pruneWitness) :=
  ⟨by decide, by decide, by decide,
    C9_prune_items_invariant pruneWitness (by decide) (by decide) (by decide)⟩

/-! Lemmas about the true and false normalizer, leading to C5, C6, C7. -/

theorem dictGet_mem (m : List (ByteStr × ByteStr)) (k v : ByteStr)
    (h : dictGet m k = some v) : ∃ p, p ∈ m ∧ p.2 = v := by
  unfold dictGet at h
  cases hf : m.reverse.find? (fun p => p.1 == k) with
  | none => rw [hf] at h; simp at h
  | some p =>
    rw [hf] at h
    exact ⟨p, List.mem_reverse.mp (List.mem_of_find?_eq_some hf), Option.some.inj h⟩

theorem tfMapping_values (id1 id2 t1 t2 : ByteStr) (correct : Option ByteStr) :
    ∀ p ∈ tfMapping id1 id2 t1 t2 correct, p.2 = strTrue ∨ p.2 = strFalse := by
  intro p hp
  have hts2 : textSetTF t1 t2 = true →
      p ∈ ([(id1, t1), (id2, t2)] : List (ByteStr × ByteStr)) →
      p.2 = strTrue ∨ p.2 = strFalse := by
    intro hts hmem
    unfold textSetTF at hts
    simp only [List.mem_cons, List.not_mem_nil, or_false] at hmem
    rcases Bool.or_eq_true_iff.mp hts with hb | hb <;>
      simp only [Bool.and_eq_true, beq_iff_eq] at hb <;>
      rcases hmem with hmem | hmem <;> subst hmem <;> simp [hb.1, hb.2]
  cases correct with
  | none =>
    simp only [tfMapping] at hp
    by_cases hts : textSetTF t1 t2
    · exact hts2 hts (by rwa [if_pos hts] at hp)
    · rw [if_neg hts] at hp
      simp only [List.mem_cons, List.not_mem_nil, or_false] at hp
      rcases hp with hp | hp <;> subst hp <;> simp
  | some cid =>
    simp only [tfMapping] at hp
    by_cases hc : (cid == id1 || cid == id2) = true
    · rw [if_pos hc] at hp
      simp only [List.mem_cons, List.not_mem_nil, or_false] at hp
      rcases hp with hp | hp <;> subst hp <;> simp
    · rw [if_neg hc] at hp
      by_cases hts : textSetTF t1 t2
      · exact hts2 hts (by rwa [if_pos hts] at hp)
      · rw [if_neg hts] at hp
        simp only [List.mem_cons, List.not_mem_nil, or_false] at hp
        rcases hp with hp | hp <;> subst hp <;> simp

theorem rewriteVe_canonical (m : List (ByteStr × ByteStr))
    (hm : ∀ p ∈ m, p.2 = strTrue ∨ p.2 = strFalse) (v : ByteStr) :
    (toLowerB (sstrip (rewriteVe m v)) == strTrue
      || toLowerB (sstrip (rewriteVe m v)) == strFalse) = true := by
  unfold rewriteVe
  cases hd : dictGet m (sstrip v) with
  | some mv =>
    simp only [hd]
    obtain ⟨p, hpm, hpv⟩ := dictGet_mem m (sstrip v) mv hd
    rcases hm p hpm with hval | hval <;> rw [hpv] at hval <;> subst hval <;> decide
  | none =>
    simp only [hd]
    by_cases hl : (toLowerB (sstrip v) == strTrue || toLowerB (sstrip v) == strFalse) = true
    · rw [if_pos hl]
      rcases Bool.or_eq_true_iff.mp hl with hb | hb <;>
        rw [show toLowerB (sstrip v) = _ from beq_iff_eq.mp hb] <;> decide
    · rw [if_neg hl]
      decide

theorem processTwo_canonical (it : TFItem) (l1 l2 : RespLabel) :
    ∃ x y, (processTwo it l1 l2).respLid = some [x, y] ∧
      textSetTF (toLowerB x.ident) (toLowerB y.ident) = true ∧
      (processTwo it l1 l2).varequals.all (fun v =>
        toLowerB (sstrip v) == strTrue || toLowerB (sstrip v) == strFalse) = true := by
  unfold processTwo
  set m := tfMapping l1.ident l2.ident (mattextLower l1) (mattextLower l2)
    (firstCorrect it.varequals) with hm
  set l1b : RespLabel := { l1 with ident := (dictGet m l1.ident).getD l1.ident }
  set l2b : RespLabel := { l2 with ident := (dictGet m l2.ident).getD l2.ident }
  by_cases hset : textSetTF (toLowerB l1b.ident) (toLowerB l2b.ident) = true
  · rw [if_neg (by rw [hset]; simp)]
    refine ⟨l1b, l2b, rfl, hset, ?_⟩
    rw [List.all_eq_true]
    intro v hv
    rw [List.mem_map] at hv
    obtain ⟨w, _, hw⟩ := hv
    rw [← hw]
    exact rewriteVe_canonical m (tfMapping_values _ _ _ _ _) w
  · rw [if_pos (by rw [Bool.eq_false_iff.mpr hset]; simp)]
    refine ⟨{ l1b with ident := strTrue }, { l2b with ident := strFalse }, rfl, ?_, ?_⟩
    · show textSetTF (toLowerB strTrue) (toLowerB strFalse) = true
      decide
    rw [List.all_eq_true]
    intro v hv
    rw [List.mem_map] at hv
    obtain ⟨w, _, hw⟩ := hv
    rw [← hw]
    by_cases hwt : (toLowerB (sstrip w) == strTrue) = true
    · rw [if_pos hwt]; decide
    · rw [if_neg hwt]; decide

theorem hasBad_of_canonical (it : TFItem) (x y : RespLabel)
    (hresp : it.respLid = some [x, y])
    (hset : textSetTF (toLowerB x.ident) (toLowerB y.ident) = true)
    (hall : it.varequals.all (fun v =>
        toLowerB (sstrip v) == strTrue || toLowerB (sstrip v) == strFalse) = true) :
    hasBadTFIdents it = false := by
  have hany : it.varequals.any (fun v =>
      !(toLowerB (sstrip v) == strTrue || toLowerB (sstrip v) == strFalse)) = false := by
    rw [List.any_eq_false]
    intro v hv
    simp [List.all_eq_true.mp hall v hv]
  unfold hasBadTFIdents
  rw [hresp]
  simp [hset, hany]
  intro _ v hv hA
  have h1 := List.all_eq_true.mp hall v hv
  simp only [Bool.or_eq_true, beq_iff_eq] at h1
  exact h1.resolve_left hA

theorem collapseLabels_two (ls : List RespLabel) (h : 2 ≤ ls.length) :
    ∃ a b, collapseLabels ls = [a, b] := by
  unfold collapseLabels
  split
  · exact ⟨_, _, rfl⟩
  · cases ls with
    | nil => simp at h
    | cons a t =>
      cases t with
      | nil => simp at h
      | cons b r => exact ⟨a, b, rfl⟩

theorem processItem_not_detected (fb : Bool) (it : TFItem) (h : isTF it = false) :
    (processItem fb it).2 = TFOutcome.notDetected := by
  unfold processItem
  rw [h]
  rfl

theorem processItem_detected (fb : Bool) (it : TFItem) (h : isTF it = true) :
    (processItem fb it).2 = TFOutcome.fixed ∨ (processItem fb it).2 = TFOutcome.fallbackMC
      ∨ (processItem fb it).2 = TFOutcome.skipped := by
  unfold processItem
  rw [h]
  simp only [Bool.not_true, Bool.false_eq_true, if_false]
  split
  · split
    · simp
    · split
      · split <;> simp
      · simp
  · split <;> simp

/-- C6: over any QTI file, each item detected as a true-or-false candidate
gets exactly one of the three terminal outcomes, so the three counters of
fix_qti_true_false_in_place sum to the number of detected candidates;
undetected items contribute to none of them. -/
theorem C6_tf_counters_sum (fb : Bool) (items : List TFItem) :
    (processItems fb items).2.tf_fixed + (processItems fb items).2.tf_mc_fallback
      + (processItems fb items).2.tf_skipped
      = (items.filter (fun it => isTF it)).length := by
  induction items with
  | nil => rfl
  | cons it rest ih =>
    by_cases h : isTF it = true
    · rcases processItem_detected fb it h with h2 | h2 | h2 <;>
        rw [List.filter_cons_of_pos (by simpa using h)] <;>
        simp only [processItems, h2, List.length_cons] <;>
        simp <;> omega
    · have h2 := processItem_not_detected fb it (Bool.eq_false_iff.mpr h)
      rw [List.filter_cons_of_neg (by simpa using h)]
      simp only [processItems, h2]
      simp
      omega

/-- C7 counterexample: a detected true-or-false item with three choice
options and the fallback disabled is not left unchanged and not counted
skipped; the source collapses its labels to two and counts it fixed. -/
theorem C7_three_options_not_skipped :
    (processItem false threeChoiceItem).2 = TFOutcome.fixed ∧
    (processItem false threeChoiceItem).2 ≠ TFOutcome.skipped ∧
    (processItem false threeChoiceItem).1 ≠ threeChoiceItem := by
  decide

/-- C7 (amended): when a detected two-choice item has three or more
choice options and the fallback is disabled, the item is modified — its
labels are collapsed to exactly two — and it is counted as tf_fixed, not
skipped; no fatal error follows on its account since the result passes
the bad-ident check. -/
theorem C7_malformed_shape_amended (it : TFItem) (ls : List RespLabel)
    (hdet : isTF it = true) (hls : it.respLid = some ls) (hlen : 3 ≤ ls.length) :
    (processItem false it).2 = TFOutcome.fixed ∧
    ((processItem false it).1.respLid.getD []).length = 2 ∧
    hasBadTFIdents (processItem false it).1 = false := by
  have h2 : (ls.length != 2) = true := by simp; omega
  have h3 : decide (ls.length > 2) = true := by simp; omega
  obtain ⟨a, b, hab⟩ := collapseLabels_two ls (by omega)
  have hres : processItem false it = (processTwo it a b, TFOutcome.fixed) := by
    unfold processItem
    rw [hdet, hls]
    simp only [Bool.not_true, Option.getD_some, Option.isNone_some, Option.isSome_some,
      Bool.false_or, Bool.true_and, h2, h3, hab, Bool.false_eq_true, if_false, if_true]
  obtain ⟨x, y, hresp, hset, hall⟩ := processTwo_canonical it a b
  refine ⟨by rw [hres], ?_, ?_⟩
  · rw [hres]
    show ((processTwo it a b).respLid.getD []).length = 2
    rw [hresp]
    rfl
  · rw [hres]
    exact hasBad_of_canonical (processTwo it a b) x y hresp hset hall

/-- C7 witness: the amended statement holds at the concrete three-option
item. -/
theorem C7_malformed_shape_amended_witness :
    (processItem false threeChoiceItem).2 = TFOutcome.fixed ∧
    ((processItem false threeChoiceItem).1.respLid.getD []).length = 2 ∧
    hasBadTFIdents (processItem false threeChoiceItem).1 = false :=
  C7_malformed_shape_amended threeChoiceItem
    [ { ident := str "optA", mattext := str "True" },
      { ident := str "optB", mattext := str "False" },
      { ident := str "optC", mattext := str "Maybe" } ]
    (by decide) (by decide) (by decide)

theorem dictGet_pair (a b x y k : ByteStr) :
    dictGet [(a, x), (b, y)] k
      = if b == k then some y else if a == k then some x else none := by
  unfold dictGet
  cases hb : b == k <;> cases ha : a == k <;>
    simp [List.find?, hb, ha]

/-- C5 counterexample: with choices opt1 texted false and opt2 texted
true and the answer key naming opt1, the source maps opt1 to true (its
first branch fires because the correct identifier equals a choice
identifier), while the claim's first branch (correct identifier equals a
canonical word) does not fire and its literal-text branch maps opt1 to
false. -/
theorem C5_mapping_counterexample :
    tfMapping (str "opt1") (str "opt2") (str "false") (str "true") (some (str "opt1"))
      = [(str "opt1", strTrue), (str "opt2", strFalse)] ∧
    tfMappingClaim (str "opt1") (str "opt2") (str "false") (str "true") (some (str "opt1"))
      = [(str "opt1", str "false"), (str "opt2", str "true")] ∧
    tfMapping (str "opt1") (str "opt2") (str "false") (str "true") (some (str "opt1"))
      ≠ tfMappingClaim (str "opt1") (str "opt2") (str "false") (str "true") (some (str "opt1")) := by
  decide

/-- C5 (amended): with distinct choice identifiers, when the answer
key's correct identifier equals one of the two choice identifiers it is
mapped to true and the other to false; else when the two literal texts
are exactly the canonical pair each identifier maps to its own text;
else the first maps to true and the second to false; and every varequal
whose stripped text is in the mapping is rewritten through it. -/
theorem C5_mapping_amended (id1 id2 t1 t2 correct : ByteStr) (hne : id1 ≠ id2) :
    ((correct = id1 ∨ correct = id2) →
      dictGet (tfMapping id1 id2 t1 t2 (some correct)) correct = some strTrue ∧
      dictGet (tfMapping id1 id2 t1 t2 (some correct))
        (if correct = id2 then id1 else id2) = some strFalse) ∧
    (correct ≠ id1 → correct ≠ id2 → textSetTF t1 t2 = true →
      dictGet (tfMapping id1 id2 t1 t2 (some correct)) id1 = some t1 ∧
      dictGet (tfMapping id1 id2 t1 t2 (some correct)) id2 = some t2) ∧
    (correct ≠ id1 → correct ≠ id2 → textSetTF t1 t2 = false →
      dictGet (tfMapping id1 id2 t1 t2 (some correct)) id1 = some strTrue ∧
      dictGet (tfMapping id1 id2 t1 t2 (some correct)) id2 = some strFalse) ∧
    (∀ ve mv, dictGet (tfMapping id1 id2 t1 t2 (some correct)) (sstrip ve) = some mv →
      rewriteVe (tfMapping id1 id2 t1 t2 (some correct)) ve = mv) := by
  have hba : (id2 == id1) = false := by
    simp only [beq_eq_false_iff_ne, ne_eq]
    exact fun h => hne h.symm
  have hab : (id1 == id2) = false := by
    simp only [beq_eq_false_iff_ne, ne_eq]
    exact hne
  refine ⟨?_, ?_, ?_, ?_⟩
  · rintro (h | h)
    · subst h
      have hm : tfMapping correct id2 t1 t2 (some correct)
          = [(correct, strTrue), (id2, strFalse)] := by
        simp [tfMapping, hab]
      rw [hm, if_neg (by simpa using hab), dictGet_pair, dictGet_pair]
      simp [hba]
    · subst h
      have hm : tfMapping id1 correct t1 t2 (some correct)
          = [(correct, strTrue), (id1, strFalse)] := by
        simp [tfMapping]
      rw [hm, if_pos rfl, dictGet_pair, dictGet_pair]
      simp [hab]
  · intro h1 h2 hts
    have hm : tfMapping id1 id2 t1 t2 (some correct) = [(id1, t1), (id2, t2)] := by
      simp [tfMapping, hts, beq_eq_false_iff_ne, h1, h2]
    rw [hm, dictGet_pair, dictGet_pair]
    simp [hba]
  · intro h1 h2 hts
    have hm : tfMapping id1 id2 t1 t2 (some correct)
        = [(id1, strTrue), (id2, strFalse)] := by
      simp [tfMapping, hts, beq_eq_false_iff_ne, h1, h2]
    rw [hm, dictGet_pair, dictGet_pair]
    simp [hba]
  · intro ve mv h
    simp [rewriteVe, h]

/-- C5 witness: the amended statement holds at concrete identifiers a
and b with answer key a. -/
theorem C5_mapping_amended_witness :
    ((str "a" = str "a" ∨ str "a" = str "b") →
      dictGet (tfMapping (str "a") (str "b") (str "x") (str "y") (some (str "a")))
        (str "a") = some strTrue ∧
      dictGet (tfMapping (str "a") (str "b") (str "x") (str "y") (some (str "a")))
        (if str "a" = str "b" then str "a" else str "b") = some strFalse) ∧
    (str "a" ≠ str "a" → str "a" ≠ str "b" → textSetTF (str "x") (str "y") = true →
      dictGet (tfMapping (str "a") (str "b") (str "x") (str "y") (some (str "a")))
        (str "a") = some (str "x") ∧
      dictGet (tfMapping (str "a") (str "b") (str "x") (str "y") (some (str "a")))
        (str "b") = some (str "y")) ∧
    (str "a" ≠ str "a" → str "a" ≠ str "b" → textSetTF (str "x") (str "y") = false →
      dictGet (tfMapping (str "a") (str "b") (str "x") (str "y") (some (str "a")))
        (str "a") = some strTrue ∧
      dictGet (tfMapping (str "a") (str "b") (str "x") (str "y") (some (str "a")))
        (str "b") = some strFalse) ∧
    (∀ ve mv, dictGet (tfMapping (str "a") (str "b") (str "x") (str "y") (some (str "a")))
        (sstrip ve) = some mv →
      rewriteVe (tfMapping (str "a") (str "b") (str "x") (str "y") (some (str "a"))) ve = mv) :=
  C5_mapping_amended (str "a") (str "b") (str "x") (str "y") (str "a") (by decide)

/-- C8: the post-rewrite marker verifier raises exactly when the
serialized manifest text contains an occurrence of one of the three
forbidden legacy markers as a substring. -/
theorem C8_marker_verifier_exact (t : ByteStr) :
    assert_no_v13_v12_uris t = true ↔ (strM1 <:+: t ∨ strM2 <:+: t ∨ strM3 <:+: t) := by
  unfold assert_no_v13_v12_uris
  rw [bne_iff_ne]
  induction t using findMarkers.induct with
  | case1 =>
    simp only [findMarkers]
    constructor
    · intro h
      exact absurd rfl h
    · rintro (h | h | h) <;>
        rw [List.infix_nil] at h <;>
        exact absurd h (by decide)
  | case2 b rest h ih =>
    constructor
    · intro _
      exact Or.inl (List.isPrefixOf_iff_prefix.mp h).isInfix
    · intro _
      simp [findMarkers, h]
  | case3 b rest h1 h ih =>
    constructor
    · intro _
      exact Or.inr (Or.inl (List.isPrefixOf_iff_prefix.mp h).isInfix)
    · intro _
      simp [findMarkers, h1, h]
  | case4 b rest h1 h2 h ih =>
    constructor
    · intro _
      exact Or.inr (Or.inr (List.isPrefixOf_iff_prefix.mp h).isInfix)
    · intro _
      simp [findMarkers, h1, h2, h]
  | case5 b rest h1 h2 h3 ih =>
    have e : findMarkers (b :: rest) = findMarkers rest := by
      simp [findMarkers, h1, h2, h3]
    rw [e, ih]
    constructor
    · rintro (h | h | h)
      · exact Or.inl (List.infix_cons_iff.mpr (Or.inr h))
      · exact Or.inr (Or.inl (List.infix_cons_iff.mpr (Or.inr h)))
      · exact Or.inr (Or.inr (List.infix_cons_iff.mpr (Or.inr h)))
    · rintro (h | h | h)
      · rcases List.infix_cons_iff.mp h with hp | hi
        · exact absurd (List.isPrefixOf_iff_prefix.mpr hp) h1
        · exact Or.inl hi
      · rcases List.infix_cons_iff.mp h with hp | hi
        · exact absurd (List.isPrefixOf_iff_prefix.mpr hp) h2
        · exact Or.inr (Or.inl hi)
      · rcases List.infix_cons_iff.mp h with hp | hi
        · exact absurd (List.isPrefixOf_iff_prefix.mpr hp) h3
        · exact Or.inr (Or.inr hi)

theorem uniqExisting_nil (payload : List ByteStr) (l : List ByteStr)
    (hall : ∀ p ∈ l, payload.contains p = false) :
    ∀ seen, uniqExisting payload seen l = [] := by
  induction l with
  | nil => intro seen; rfl
  | cons p rest ih =>
    intro seen
    have hcp := hall p (by simp)
    simp only [uniqExisting, hcp, Bool.and_false, Bool.false_eq_true, if_false]
    exact ih (fun q hq => hall q (by simp [hq])) _

/-- C10: when the declared schemaversion starts with 1.0 or 1.1 and the
package holds no Canvas QTI artifacts — no file entry and no dependency
resource with an href under non_cc_assessments ending in .xml.qti, and
no assessment_qti.xml file entry backed by an existing payload — the
early step of process_cartridge returns the package unchanged, running
no downgrade pass. -/
theorem C10_early_pass_through (pkg : Package) (ver : ByteStr)
    (hver : manifest_cc_version pkg.root = some ver)
    (hpre : ((str "1.0").isPrefixOf ver || (str "1.1").isPrefixOf ver) = true)
    (hfiles : ∀ h ∈ collectAttrL strFile strHref pkg.root.children,
      isCanvasQtiHref h = false)
    (hdeps : depQtiHrefs pkg.root = [])
    (haqx : ∀ h ∈ collectAttrL strFile strHref pkg.root.children,
      strAQX.isSuffixOf h = true → pkg.payload.contains h = false) :
    process_cartridge_early pkg = some pkg := by
  have hne : (ver != []) = true := by
    rcases Bool.or_eq_true_iff.mp hpre with h | h <;>
      · have hlen := (List.isPrefixOf_iff_prefix.mp h).length_le
        cases ver
        · simp [str] at hlen
        · simp
  have hf : (collectAttrL strFile strHref pkg.root.children).filter isCanvasQtiHref = [] :=
    List.filter_eq_nil_iff.mpr (fun a ha => by simp [hfiles a ha])
  have hdet : detect_canvas_qti_artifacts pkg = false := by
    unfold detect_canvas_qti_artifacts
    rw [hf, hdeps]
    simp only [List.nil_append]
    rw [uniqExisting_nil pkg.payload _ (fun p hp => by
      have := List.mem_filter.mp hp
      exact haqx p this.1 this.2) []]
    simp
  unfold process_cartridge_early
  rw [hver]
  simp only [hne, hpre, hdet, Bool.not_false, Bool.and_true, Bool.true_and, if_true]

/-- C10 witness: the early pass-through fires on a concrete 1.1 package
with an html resource and no QTI artifacts. -/
theorem C10_early_pass_through_witness :
    process_cartridge_early earlyPassPkg = some earlyPassPkg :=
  C10_early_pass_through earlyPassPkg (str "1.1.0") (by decide) (by decide)
    (by decide) (by decide) (by decide)

/-- C1 is violated by the code: running the three repair passes on a
well-formed package whose resource href is plain (escape-free, so its
canonical encoded form equals its decoded form) deletes the only payload
copy — the second branch of enforce_decoded_payload unlinks the encoded
path because both the encoded and the decoded path exist, the two being
the same file — leaving the referenced href dangling in the written
archive. -/
theorem C1_enforce_deletes_plain_payload :
    (dedupe_keep_decoded (enforce_decoded_payload
        (normalize_resource_hrefs c1Pkg))).payload = [] ∧
    collectAttrL strResource strHref
        (dedupe_keep_decoded (enforce_decoded_payload
          (normalize_resource_hrefs c1Pkg))).root.children
      = [str "web/x.html"] ∧
    canonicalize_href (str "web/x.html") = str "web/x.html" := by
  decide

end Downgrader
